import Mathlib

/-!
Shallow embedding of the nsf-outreach pipeline (src/utils.js, src/awards.js,
src/generate.js, src/send.js and the review-mode moves of the CLI), together
with theorems settling the frozen claims about its specification.

The filesystem Record Store is modelled as association lists in listing
order: a folder is a list of `(filename-id, parsed-content)` pairs, where a
`none` content models a file `readJson` fails to parse.  External effects
(the model call, the delivery API, sleeps, progress callbacks) are modelled
as explicit oracle arguments and event traces.  JavaScript truthiness on
possibly-absent strings and numbers is modelled explicitly.
-/

namespace NSFOutreach

deriving instance DecidableEq for Except

/-! ## JavaScript truthiness helpers -/

/-- Truthiness of a possibly-absent JS string: `undefined`, `null` and `""`
are falsy. -/
def jsTruthyS (o : Option String) : Bool :=
  match o with
  | none => false
  | some s => s ≠ ""

/-- JS `a || b` on possibly-absent strings. -/
def jsOrS (a b : Option String) : Option String :=
  if jsTruthyS a then a else b

/-- JS `a || b || ""`, which always yields a string. -/
def jsOrSD (a b : Option String) : String :=
  (jsOrS a (jsOrS b (some ""))).getD ""

/-- Truthiness of a possibly-absent JS number: `undefined`, `null` and `0`
are falsy. -/
def jsTruthyN (o : Option Int) : Bool :=
  match o with
  | none => false
  | some n => n ≠ 0

/-- JS `a || b` on possibly-absent numbers. -/
def jsOrN (a b : Option Int) : Option Int :=
  if jsTruthyN a then a else b

/-! ## JS `String.prototype.includes` (substring test) -/

/-- Does `pat` occur at the start of `text`? -/
def leadsWithList : List Char → List Char → Bool
  | [], _ => true
  | _ :: _, [] => false
  | p :: ps, c :: cs => p == c && leadsWithList ps cs

/-- Does `pat` occur anywhere inside `text`? -/
def hasSubList : List Char → List Char → Bool
  | pat, [] => pat.isEmpty
  | pat, c :: cs => leadsWithList pat (c :: cs) || hasSubList pat cs

/-- JS `s.includes(pat)`. -/
def strIncludes (s pat : String) : Bool :=
  hasSubList pat.data s.data

/-- JS `s.toLowerCase()` (ASCII case mapping, applied character-wise). -/
def jsToLower (s : String) : String :=
  ⟨s.data.map Char.toLower⟩

/-! ## Data model (raw NSF award JSON and generated outreach records) -/

/-- One entry of the raw award's `pi` array. -/
structure PIData where
  pi_role : Option String
  pi_first_name : Option String
  pi_last_name : Option String
  pi_full_name : Option String
  pi_email_addr : Option String
deriving DecidableEq, Repr

/-- The raw award's `inst` object. -/
structure Inst where
  inst_name : Option String
deriving DecidableEq, Repr

/-- A raw (or normalized) NSF award record.  Fields the source reads are
modelled; each is possibly absent, as in JSON. -/
structure Award where
  awd_id : Option String
  awd_titl_txt : Option String
  awd_abstract_narration : Option String
  title : Option String
  abstractText : Option String
  awardNumber : Option String
  piFirstName : Option String
  piLastName : Option String
  piEmail : Option String
  pi : Option (List PIData)
  inst : Option Inst
  awardeeName : Option String
  awd_amount : Option Int
  tot_intn_awd_amt : Option Int
  _id : Option String
  _year : Option String
deriving DecidableEq, Repr

/-- Result of `extractPIInfo` (src/awards.js). -/
structure PIInfo where
  piFirstName : String
  piLastName : String
  piName : String
  piEmail : Option String
  institution : String
deriving DecidableEq, Repr

/-- The `variants` analytics field of a generated record. -/
structure VariantSel where
  template_id : String
  template_name : String
  ouro_description_id : String
  call_to_action_id : String
deriving DecidableEq, Repr

/-- A generated outreach email record (one JSON file in a status folder). -/
structure OutreachRecord where
  award_id : String
  pi_name : String
  pi_email : Option String
  institution : String
  award_title : Option String
  award_amount : Option Int
  subject : Option String
  body : Option String
  variants : Option VariantSel
  generated_at : Option String
  sent_at : Option String
  resend_id : Option String
deriving DecidableEq, Repr

/-! ## Record Store (status folders as association lists) -/

/-- One status folder: filename ids with parsed file contents, in listing
order.  A `none` content is a file `readJson` returns `null` for. -/
abbrev Folder := List (String × Option OutreachRecord)

/-- Is a file named `id` present in the folder? -/
def folderHas (f : Folder) (id : String) : Bool :=
  f.any (fun p => p.1 = id)

/-- Look a file up by name: `none` if absent, `some content` if present. -/
def folderFind : Folder → String → Option (Option OutreachRecord)
  | [], _ => none
  | p :: rest, id => if p.1 = id then some p.2 else folderFind rest id

/-- `writeJson`: replace the content when the file exists (keeping its
listing position), append a new file otherwise. -/
def listWrite (f : Folder) (id : String) (v : Option OutreachRecord) : Folder :=
  if folderHas f id then
    f.map (fun p => if p.1 = id then (id, v) else p)
  else
    f ++ [(id, v)]

/-- `fs.unlinkSync` guarded by `existsSync`: drop the file if present. -/
def listErase (f : Folder) (id : String) : Folder :=
  f.filter (fun p => p.1 ≠ id)

/-- The four status folders of the Record Store. -/
structure StoreState where
  drafts : Folder
  approved : Folder
  sent : Folder
  skipped : Folder
deriving DecidableEq, Repr

/-- `listIds` (src/utils.js): the filenames of a folder. -/
def folderIds (f : Folder) : List String :=
  f.map (fun p => p.1)

/-- `isAlreadyProcessed` (src/generate.js): the id is in the union of the
four status folders. -/
def isAlreadyProcessed (s : StoreState) (id : String) : Bool :=
  (folderIds s.drafts ++ folderIds s.approved ++
    folderIds s.sent ++ folderIds s.skipped).any (fun x => x = id)

/-- In how many of the four status folders does `id` appear? -/
def countPresence (s : StoreState) (id : String) : Nat :=
  (if folderHas s.drafts id then 1 else 0) +
  (if folderHas s.approved id then 1 else 0) +
  (if folderHas s.sent id then 1 else 0) +
  (if folderHas s.skipped id then 1 else 0)

/-! ## src/awards.js -/

/-- `extractPIInfo`: pick the principal investigator from the `pi` array
(or its first entry, or an empty object), then resolve each field through
the source's `||` fallback chains. -/
def extractPIInfo (award : Award) : PIInfo :=
  let piList := award.pi.getD []
  let piData :=
    match piList.find? (fun p => p.pi_role = some "Principal Investigator") with
    | some p => p
    | none => piList.headD ⟨none, none, none, none, none⟩
  let piFirstName := jsOrSD piData.pi_first_name award.piFirstName
  let piLastName := jsOrSD piData.pi_last_name award.piLastName
  let piEmail := jsOrS piData.pi_email_addr (jsOrS award.piEmail none)
  let institution := jsOrSD (award.inst.bind Inst.inst_name) award.awardeeName
  { piFirstName := piFirstName
    piLastName := piLastName
    piName :=
      (jsOrS piData.pi_full_name
        (some ((piFirstName ++ " " ++ piLastName).trim))).getD ""
    piEmail := piEmail
    institution := institution }

/-- `hasValidContact`: the resolved PI email is truthy and contains `@`. -/
def hasValidContact (award : Award) : Bool :=
  let piEmail := (extractPIInfo award).piEmail
  jsTruthyS piEmail && strIncludes (piEmail.getD "") "@"

/-- `matchesKeywords` (src/utils.js). -/
def matchesKeywords (text : String) (keywords : List String) : Bool :=
  if keywords.isEmpty then true
  else if text = "" then false
  else keywords.any (fun kw => strIncludes (jsToLower text) (jsToLower kw))

/-- The in-place field normalization `loadAwards` performs, plus the
`_id`/`_year` tagging of the pushed copy. -/
def normalizeAward (a : Award) (id year : String) : Award :=
  { a with
    title := some (jsOrSD a.awd_titl_txt a.title)
    abstractText := some (jsOrSD a.awd_abstract_narration a.abstractText)
    awardNumber := jsOrS a.awd_id (jsOrS a.awardNumber (some id))
    _id := some id
    _year := some year }

/-- The title-plus-abstract search text `loadAwards` builds. -/
def searchTextOf (a : Award) : String :=
  (a.title.getD "") ++ " " ++ (a.abstractText.getD "")

/-- `loadAwards`: the year partition is a list of `(filename-id, parse
result)` pairs; unreadable files are skipped, readable ones normalized and
kept when the keywords match. -/
def loadAwards (partition : List (String × Option Award)) (year : String)
    (keywords : List String) : List Award :=
  match partition with
  | [] => []
  | (_, none) :: rest => loadAwards rest year keywords
  | (id, some a) :: rest =>
    let n := normalizeAward a id year
    if matchesKeywords (searchTextOf n) keywords then
      n :: loadAwards rest year keywords
    else
      loadAwards rest year keywords

/-- The award id `generateEmail` uses: `award.awardNumber || award._id`
(JS interpolates an absent id as the string "undefined"). -/
def jsId (award : Award) : String :=
  (jsOrS award.awardNumber award._id).getD "undefined"

/-! ## src/generate.js -/

/-- One item of a style facet in `templates/variants.json`.  Only `enabled`
and the fields copied into records/prompts are modelled; a missing
`enabled` key is `none`. -/
structure VariantItem where
  id : String
  name : String
  content : String
  angle : String
  tone : String
  subject_line_style : String
  sign_off_style : String
  enabled : Option Bool
deriving DecidableEq, Repr

/-- The three facet lists of `variants.json`. -/
structure VariantsConfig where
  templates : List VariantItem
  ouro_descriptions : List VariantItem
  call_to_actions : List VariantItem
deriving DecidableEq, Repr

/-- The triple `selectVariants` returns. -/
structure SelectedVariants where
  template : VariantItem
  ouro_description : VariantItem
  call_to_action : VariantItem
deriving DecidableEq, Repr

/-- `filterEnabled`: drop items whose `enabled` field is literally `false`. -/
def filterEnabled (items : List VariantItem) : List VariantItem :=
  items.filter (fun item => item.enabled ≠ some false)

/-- `randomSelect(arr)` draws `arr[Math.floor(Math.random() * arr.length)]`;
the random draw is modelled as an arbitrary natural reduced modulo the pool
size, which reaches exactly the indices `0 ≤ i < arr.length` the source can
reach. -/
def randomSelect (arr : List VariantItem) (r : Nat) (h : 0 < arr.length) :
    VariantItem :=
  arr.get ⟨r % arr.length, Nat.mod_lt r h⟩

/-- `selectVariants`: filter each facet to its enabled items, fail on an
empty pool, otherwise draw one item per facet. -/
def selectVariants (cfg : VariantsConfig) (rt ro rc : Nat) :
    Except String SelectedVariants :=
  let enabledTemplates := filterEnabled cfg.templates
  let enabledOuroDescriptions := filterEnabled cfg.ouro_descriptions
  let enabledCallToActions := filterEnabled cfg.call_to_actions
  if ht : enabledTemplates.length = 0 then
    .error "No enabled templates available"
  else if ho : enabledOuroDescriptions.length = 0 then
    .error "No enabled ouro_descriptions available"
  else if hc : enabledCallToActions.length = 0 then
    .error "No enabled call_to_actions available"
  else
    .ok
      { template := randomSelect enabledTemplates rt (Nat.pos_of_ne_zero ht)
        ouro_description :=
          randomSelect enabledOuroDescriptions ro (Nat.pos_of_ne_zero ho)
        call_to_action :=
          randomSelect enabledCallToActions rc (Nat.pos_of_ne_zero hc) }

/-- `getFirstName`: empty for a falsy name, else the part before the first
space. -/
def getFirstName (fullName : String) : String :=
  if fullName = "" then "" else (fullName.splitOn " ").headD ""

/-- The closing words `generateEmail` adds a comma after. -/
def commonClosings : List String :=
  ["Best", "Cheers", "Thanks", "Regards", "Sincerely"]

/-- The body post-processing of `generateEmail`: trim, then append a comma
to the last line when it ends in a bare common closing word. -/
def fixClosing (body0 : String) : String :=
  let body := body0.trim
  let lines := body.splitOn "\n"
  let lastLine := (lines.getLastD "").trim
  let words :=
    (lastLine.split (fun c => c.isWhitespace || c = ','))
      |>.filter (fun w => w ≠ "")
  let lastWord := words.getLastD ""
  if commonClosings.contains lastWord && !(lastLine.endsWith ",") then
    String.intercalate "\n" (lines.dropLast ++ [lastLine ++ ","])
  else body

/-- The `create_email` tool-use input found in the model response, when
any; each field may be absent or empty. -/
structure ModelOutput where
  subject : Option String
  body : Option String
deriving DecidableEq, Repr

/-- `generateEmail` (src/generate.js).  The external model call is
modelled by the `response` oracle (`none` = no `create_email` tool use in
the reply); the returned flag records whether that call was reached.
`buildStyleGuide`/`buildPrompt` are pure string compositions whose output
only feeds that call, so they are not modelled separately.  The
variants configuration and the three random draws feed `selectVariants`,
`now` is the generation timestamp, and `s` is the Record Store state read
by `isAlreadyProcessed`. -/
def generateEmail (award : Award) (cfg : VariantsConfig) (rt ro rc : Nat)
    (response : Option ModelOutput) (senderName fromNameEnv : Option String)
    (now : String) (s : StoreState) : Bool × Except String OutreachRecord :=
  if ¬hasValidContact award then
    (false, .error "Award does not have valid PI email")
  else
    let awardId := jsId award
    if isAlreadyProcessed s awardId then
      (false, .error ("Award " ++ awardId ++
        " has already been processed (draft, approved, sent, or skipped)"))
    else
      match selectVariants cfg rt ro rc with
      | .error e => (false, .error e)
      | .ok variants =>
        let pi := extractPIInfo award
        match response with
        | none => (true, .error "No tool use response from Claude")
        | some emailData =>
          if ¬jsTruthyS emailData.subject ∨ ¬jsTruthyS emailData.body then
            (true, .error "Response missing subject or body")
          else
            let senderNameStr := jsOrSD senderName fromNameEnv
            let firstName := getFirstName senderNameStr
            let signature :=
              if firstName ≠ "" then
                "\n\n" ++ senderNameStr ++ "\nhttps://ouro.foundation"
              else "\n\nBuilding Ouro\nhttps://ouro.foundation"
            let bodyWithSignature :=
              fixClosing (emailData.body.getD "") ++ signature
            (true, .ok
              { award_id := awardId
                pi_name := pi.piName
                pi_email := pi.piEmail
                institution := pi.institution
                award_title := award.title
                award_amount :=
                  jsOrN award.awd_amount (jsOrN award.tot_intn_awd_amt none)
                subject := emailData.subject
                body := some bodyWithSignature
                variants := some
                  { template_id := variants.template.id
                    template_name := variants.template.name
                    ouro_description_id := variants.ouro_description.id
                    call_to_action_id := variants.call_to_action.id }
                generated_at := some now
                sent_at := none
                resend_id := none })

/-- `saveDraft`: write the record into the drafts folder under its award
id. -/
def saveDraft (email : OutreachRecord) (s : StoreState) : StoreState :=
  { s with drafts := listWrite s.drafts email.award_id (some email) }

/-- One `generate` step of the batch loop: `generateEmail` followed by
`saveDraft` on success, no store change on a per-award error. -/
def generateAndSave (award : Award) (cfg : VariantsConfig) (rt ro rc : Nat)
    (response : Option ModelOutput) (senderName fromNameEnv : Option String)
    (now : String) (s : StoreState) : StoreState :=
  match (generateEmail award cfg rt ro rc response senderName fromNameEnv
      now s).2 with
  | .ok email => saveDraft email s
  | .error _ => s

/-! ## Review-mode moves (CLI review screen) -/

/-- The review screen's approve action: `moveFile(id.json, drafts,
approved)`.  `renameSync` throws when the source file is absent and the UI
catches the error, leaving the store unchanged; an existing destination is
silently overwritten. -/
def approveDraft (s : StoreState) (id : String) : StoreState :=
  match folderFind s.drafts id with
  | none => s
  | some content =>
    { s with
      drafts := listErase s.drafts id
      approved := listWrite s.approved id content }

/-- The review screen's skip action: `moveFile(id.json, drafts, skipped)`. -/
def skipDraft (s : StoreState) (id : String) : StoreState :=
  match folderFind s.drafts id with
  | none => s
  | some content =>
    { s with
      drafts := listErase s.drafts id
      skipped := listWrite s.skipped id content }

/-! ## src/send.js -/

/-- `getApprovedEmails`: the parseable records of the approved folder, in
listing order (`readJson` nulls filtered out). -/
def getApprovedEmails (s : StoreState) : List OutreachRecord :=
  s.approved.filterMap (fun p => p.2)

/-- Observable external effects of the sender, in order. -/
inductive SendEvent where
  | progress (awardId : String)
  | apiCall (recipient : Option String)
  | slept (ms : Int)
deriving DecidableEq, Repr

/-- The success value `sendEmail` resolves with. -/
structure SendOk where
  success : Bool
  wasDryRun : Bool
  resendId : Option String
  toAddr : Option String
  subj : Option String
deriving DecidableEq, Repr

/-- `sendEmail`: reject a missing recipient, synthesize a success in dry
run without any external call, otherwise consult the delivery oracle
`outcome` (`error` = the provider returned an error, `ok rid` = success
with confirmation id `result.data?.id`).  The second component lists the
external delivery calls made.  The `from` header composed from
`fromEmail`/`fromName` only shapes the provider payload and affects no
control flow, so it is not modelled. -/
def sendEmail (email : OutreachRecord) (dryRun : Bool)
    (outcome : Except String (Option String)) :
    Except String SendOk × List SendEvent :=
  if ¬jsTruthyS email.pi_email then
    (.error "No recipient email address", [])
  else if dryRun then
    (.ok { success := true, wasDryRun := true, resendId := none,
           toAddr := email.pi_email, subj := email.subject }, [])
  else
    match outcome with
    | .error m => (.error m, [SendEvent.apiCall email.pi_email])
    | .ok rid =>
      (.ok { success := true, wasDryRun := false, resendId := rid,
             toAddr := email.pi_email, subj := email.subject },
       [SendEvent.apiCall email.pi_email])

/-- `markAsSent`: write the record, with `sent_at` and `resend_id` set,
into the sent folder, then delete its file from the approved folder. -/
def markAsSent (now : String) (email : OutreachRecord)
    (resendId : Option String) (s : StoreState) :
    OutreachRecord × StoreState :=
  let updatedEmail :=
    { email with sent_at := some now, resend_id := resendId }
  let s1 := { s with sent := listWrite s.sent email.award_id (some updatedEmail) }
  let s2 := { s1 with approved := listErase s1.approved email.award_id }
  (updatedEmail, s2)

/-- One entry of the sender's `sent` result list. -/
structure SentEntry where
  awardId : String
  recipient : Option String
  subject : Option String
  resendId : Option String
deriving DecidableEq, Repr

/-- One entry of the sender's `errors` result list. -/
structure ErrorEntry where
  awardId : String
  recipient : Option String
  error : String
deriving DecidableEq, Repr

/-- The `{sent, errors, dryRun}` object `sendApprovedEmails` returns. -/
structure SendResults where
  sent : List SentEntry
  errors : List ErrorEntry
  wasDryRun : Bool
deriving DecidableEq, Repr

/-- The outcome of the per-record send loop. -/
structure LoopOut where
  sentList : List SentEntry
  errList : List ErrorEntry
  state : StoreState
  events : List SendEvent
deriving DecidableEq, Repr

/-- The `for` loop of `sendApprovedEmails`: per record, report progress,
attempt the send (the delivery oracle `dp` is indexed by loop position),
move a success to sent, record a failure, and sleep `delay * 1000`
milliseconds after a non-final successful real send when `delay > 0`. -/
def sendLoop (dp : Nat → Except String (Option String)) (now : String)
    (dryRun : Bool) (delay : Int) (total : Nat) :
    Nat → List OutreachRecord → StoreState → LoopOut
  | _, [], s => { sentList := [], errList := [], state := s, events := [] }
  | i, email :: rest, s =>
    let evs0 := [SendEvent.progress email.award_id]
    match sendEmail email dryRun (dp i) with
    | (.error msg, evs1) =>
      let tail := sendLoop dp now dryRun delay total (i + 1) rest s
      { sentList := tail.sentList
        errList := { awardId := email.award_id, recipient := email.pi_email,
                     error := msg } :: tail.errList
        state := tail.state
        events := evs0 ++ evs1 ++ tail.events }
    | (.ok result, evs1) =>
      let s1 := if dryRun then s else (markAsSent now email result.resendId s).2
      let evs2 :=
        if ¬dryRun ∧ i < total - 1 ∧ delay > 0 then
          [SendEvent.slept (delay * 1000)]
        else []
      let tail := sendLoop dp now dryRun delay total (i + 1) rest s1
      { sentList := { awardId := email.award_id, recipient := email.pi_email,
                      subject := email.subject, resendId := result.resendId }
            :: tail.sentList
        errList := tail.errList
        state := tail.state
        events := evs0 ++ evs1 ++ evs2 ++ tail.events }

/-- The full outcome of a `sendApprovedEmails` call: the returned (or
thrown) result, the final Record Store state, and the external events. -/
structure SendOutcome where
  result : Except String SendResults
  state : StoreState
  events : List SendEvent
deriving DecidableEq, Repr

/-- `sendApprovedEmails`: fail fast on a missing provider credential or
sender address for a real run, then process up to `limit` approved records
sequentially. -/
def sendApprovedEmails (apiKey : Option String) (limit : Nat) (delay : Int)
    (dryRun : Bool) (fromEmail : Option String)
    (dp : Nat → Except String (Option String)) (now : String)
    (s : StoreState) : SendOutcome :=
  if ¬dryRun ∧ ¬jsTruthyS apiKey then
    { result := .error "RESEND_API_KEY not set in environment",
      state := s, events := [] }
  else if ¬jsTruthyS fromEmail ∧ ¬dryRun then
    { result := .error "fromEmail is required", state := s, events := [] }
  else
    let emails := getApprovedEmails s
    let toSend := emails.take limit
    let out := sendLoop dp now dryRun delay toSend.length 0 toSend s
    { result := .ok
        { sent := out.sentList, errors := out.errList, wasDryRun := dryRun }
      state := out.state
      events := out.events }

/-! ## Sample fixtures used by concrete witnesses -/

/-- A sample outreach record with a given id and recipient. -/
def sampleRecord (i : String) (em : Option String) : OutreachRecord :=
  { award_id := i, pi_name := "Pat Doe", pi_email := em, institution := "U",
    award_title := some "T", award_amount := some 100, subject := some "S",
    body := some "B", variants := none, generated_at := some "g0",
    sent_at := none, resend_id := none }

/-- A sample raw award with a valid PI contact and id `2300001`. -/
def sampleAward : Award :=
  { awd_id := some "2300001", awd_titl_txt := some "Quantum sensing",
    awd_abstract_narration := some "We study sensors.", title := none,
    abstractText := none, awardNumber := some "2300001",
    piFirstName := none, piLastName := none, piEmail := none,
    pi := some [{ pi_role := some "Principal Investigator",
                  pi_first_name := some "Ann", pi_last_name := some "Lee",
                  pi_full_name := some "Ann Lee",
                  pi_email_addr := some "ann@uni.edu" }],
    inst := some { inst_name := some "Uni" }, awardeeName := none,
    awd_amount := some 500000, tot_intn_awd_amt := none,
    _id := some "2300001", _year := some "2025" }

/-- A sample variant item, enabled unless stated otherwise. -/
def sampleItem (i : String) (en : Option Bool) : VariantItem :=
  { id := i, name := "n" ++ i, content := "c" ++ i, angle := "a",
    tone := "t", subject_line_style := "s", sign_off_style := "o",
    enabled := en }

/-! ## Result extractors, event classifiers and witness fixtures -/

/-- Is an `Except` value a success? -/
def isOkE {α : Type} (e : Except String α) : Bool :=
  match e with
  | .ok _ => true
  | .error _ => false

/-- An empty Record Store. -/
def emptyStore : StoreState :=
  { drafts := [], approved := [], sent := [], skipped := [] }

/-- A sample award whose PI entry has no email address. -/
def sampleAwardNoEmail : Award :=
  { sampleAward with
    pi := some [{ pi_role := some "Principal Investigator",
                  pi_first_name := some "Bo", pi_last_name := some "Yu",
                  pi_full_name := some "Bo Yu", pi_email_addr := none }] }

/-- Scenario A's award: id `2301234`, PI email `a@b.edu`, title `X`,
abstract `Y`, nothing else set. -/
def awardXY : Award :=
  { awd_id := none, awd_titl_txt := none, awd_abstract_narration := none,
    title := some "X", abstractText := some "Y", awardNumber := none,
    piFirstName := none, piLastName := none, piEmail := some "a@b.edu",
    pi := none, inst := none, awardeeName := none, awd_amount := none,
    tot_intn_awd_amt := none, _id := some "2301234", _year := none }

/-- Event classifiers. -/
def isApiCallEv : SendEvent → Bool
  | SendEvent.apiCall _ => true
  | _ => false

def isSleptEv : SendEvent → Bool
  | SendEvent.slept _ => true
  | _ => false

def isProgressEv : SendEvent → Bool
  | SendEvent.progress _ => true
  | _ => false

/-- Extract a success result (the sender only returns `.ok` once past the
configuration checks). -/
def okResults (e : Except String SendResults) : SendResults :=
  match e with
  | .ok r => r
  | .error _ => { sent := [], errors := [], wasDryRun := false }

/-- A store with a single approved record `A1`, used by witnesses. -/
def oneApprovedStore : StoreState :=
  { drafts := [],
    approved := [("A1", some (sampleRecord "A1" (some "a@b.edu")))],
    sent := [], skipped := [] }

/-- Every sleep event is eventually followed by a progress event (so no
sleep happens after the last processed item). -/
def sleptFollowedByProgress : List SendEvent → Bool
  | [] => true
  | SendEvent.slept _ :: rest =>
    rest.any isProgressEv && sleptFollowedByProgress rest
  | _ :: rest => sleptFollowedByProgress rest

/-- Does the `k`-th record of the batch have a truthy recipient and a
successful dispatch outcome? -/
def sendSuccessAt (l : List OutreachRecord)
    (dp : Nat → Except String (Option String)) (k : Nat) : Bool :=
  match l.get? k with
  | some e => jsTruthyS e.pi_email && isOkE (dp k)
  | none => false

/-- A store with two approved records `A1`, `A2`, used by witnesses. -/
def twoApprovedStore : StoreState :=
  { drafts := [],
    approved := [("A1", some (sampleRecord "A1" (some "a1@x.edu"))),
                 ("A2", some (sampleRecord "A2" (some "a2@x.edu")))],
    sent := [], skipped := [] }

/-- A store with three approved records `A1`, `A2`, `A3` (Scenario C). -/
def threeApprovedStore : StoreState :=
  { drafts := [],
    approved := [("A1", some (sampleRecord "A1" (some "a1@x.edu"))),
                 ("A2", some (sampleRecord "A2" (some "a2@x.edu"))),
                 ("A3", some (sampleRecord "A3" (some "a3@x.edu")))],
    sent := [], skipped := [] }

/-- Scenario C's delivery oracle: the second dispatch call raises. -/
def scenarioCDispatch : Nat → Except String (Option String) :=
  fun k => if k = 1 then Except.error "boom" else Except.ok (some "rid0")

/-! ## Record Store lemmas -/

lemma folderFind_cons (q : String × Option OutreachRecord) (t : Folder)
    (x : String) :
    folderFind (q :: t) x = if q.1 = x then some q.2 else folderFind t x :=
  rfl

lemma folderHas_cons (q : String × Option OutreachRecord) (t : Folder)
    (x : String) :
    folderHas (q :: t) x = (decide (q.1 = x) || folderHas t x) := by
  simp [folderHas, List.any_cons]

lemma folderHas_eq_isSome (f : Folder) (id : String) :
    folderHas f id = (folderFind f id).isSome := by
  induction f with
  | nil => rfl
  | cons p rest ih =>
    rw [folderHas_cons, folderFind_cons]
    by_cases h : p.1 = id
    · simp [h]
    · simp [h, ih]

lemma folderFind_append (f g : Folder) (x : String) :
    folderFind (f ++ g) x = (folderFind f x).or (folderFind g x) := by
  induction f with
  | nil => simp [folderFind]
  | cons p rest ih =>
    by_cases h : p.1 = x <;> simp [folderFind_cons, h, ih]

lemma folderFind_replace (f : Folder) (id : String)
    (v : Option OutreachRecord) (x : String) :
    folderFind (f.map (fun p => if p.1 = id then (id, v) else p)) x =
      if x = id then (if folderHas f id then some v else none)
      else folderFind f x := by
  induction f with
  | nil => by_cases h : x = id <;> simp [folderFind, folderHas, h]
  | cons p rest ih =>
    simp only [List.map_cons]
    by_cases hp : p.1 = id
    · by_cases hx : x = id
      · subst hx
        simp [if_pos hp, folderFind_cons, folderHas_cons, hp]
      · have h1 : ¬((id : String) = x) := fun hc => hx hc.symm
        have h2 : ¬(p.1 = x) := by rw [hp]; exact h1
        simp [if_pos hp, folderFind_cons, h1, h2, hx, ih]
    · by_cases hx : x = id
      · subst hx
        simp [if_neg hp, folderFind_cons, folderHas_cons, hp, ih,
          fun hc : p.1 = x => hp hc]
      · by_cases hpx : p.1 = x
        · simp [if_neg hp, folderFind_cons, hpx, hx]
        · simp [if_neg hp, folderFind_cons, hpx, hx, ih]

lemma folderFind_of_not_has {f : Folder} {id : String}
    (h : folderHas f id = false) : folderFind f id = none := by
  have hb := folderHas_eq_isSome f id
  rw [h] at hb
  cases hf : folderFind f id
  · rfl
  · rw [hf] at hb
    simp at hb

lemma folderFind_listWrite (f : Folder) (id : String)
    (v : Option OutreachRecord) (x : String) :
    folderFind (listWrite f id v) x =
      if x = id then some v else folderFind f x := by
  unfold listWrite
  by_cases h : folderHas f id
  · rw [if_pos h, folderFind_replace, if_pos h]
  · rw [if_neg h, folderFind_append]
    by_cases hx : x = id
    · subst hx
      rw [folderFind_of_not_has (Bool.not_eq_true _ ▸ h)]
      simp [folderFind_cons, Option.or]
    · cases hf : folderFind f x
      · simp only [Option.or, folderFind_cons, folderFind]
        rw [if_neg (fun hc : (id : String) = x => hx hc.symm), if_neg hx]
      · simp [Option.or, hf, if_neg hx]

lemma folderFind_listErase (f : Folder) (id x : String) :
    folderFind (listErase f id) x =
      if x = id then none else folderFind f x := by
  induction f with
  | nil => simp [listErase, folderFind]
  | cons p rest ih =>
    simp only [listErase, ne_eq, List.filter_cons, decide_not] at *
    by_cases hp : p.1 = id
    · rw [if_neg (by simp [hp])]
      rw [ih]
      by_cases hx : x = id
      · simp [hx]
      · have hpx : ¬p.1 = x := by rw [hp]; exact fun hc => hx hc.symm
        simp [hx, folderFind_cons, hpx]
    · rw [if_pos (by simp [hp])]
      rw [folderFind_cons]
      by_cases hpx : p.1 = x
      · have hx : ¬x = id := by rw [← hpx]; exact hp
        simp [hpx, hx, folderFind_cons]
      · simp [hpx, ih, folderFind_cons]

lemma folderHas_listWrite (f : Folder) (id : String)
    (v : Option OutreachRecord) (x : String) :
    folderHas (listWrite f id v) x =
      if x = id then true else folderHas f x := by
  rw [folderHas_eq_isSome, folderFind_listWrite]
  by_cases h : x = id <;> simp [h, folderHas_eq_isSome]

lemma folderHas_listErase (f : Folder) (id x : String) :
    folderHas (listErase f id) x =
      if x = id then false else folderHas f x := by
  rw [folderHas_eq_isSome, folderFind_listErase]
  by_cases h : x = id <;> simp [h, folderHas_eq_isSome]

lemma folderHas_of_find_some {f : Folder} {id : String}
    {c : Option OutreachRecord} (h : folderFind f id = some c) :
    folderHas f id = true := by
  rw [folderHas_eq_isSome, h]
  rfl

lemma folderIds_any (f : Folder) (id : String) :
    ((folderIds f).any fun x => decide (x = id)) = folderHas f id := by
  induction f with
  | nil => rfl
  | cons p rest ih => simp [folderIds, folderHas, List.any_cons] at *; rw [ih]

lemma isAlreadyProcessed_eq (s : StoreState) (id : String) :
    isAlreadyProcessed s id =
      (folderHas s.drafts id || folderHas s.approved id ||
        folderHas s.sent id || folderHas s.skipped id) := by
  simp only [isAlreadyProcessed, List.any_append, Bool.or_assoc]
  rw [folderIds_any, folderIds_any, folderIds_any, folderIds_any]

lemma generateEmail_ok_spec
    {award : Award} {cfg : VariantsConfig} {rt ro rc : Nat}
    {response : Option ModelOutput} {senderName fromNameEnv : Option String}
    {now : String} {s : StoreState} {email : OutreachRecord}
    (h : (generateEmail award cfg rt ro rc response senderName fromNameEnv
        now s).2 = Except.ok email) :
    email.award_id = jsId award ∧
    isAlreadyProcessed s (jsId award) = false ∧
    hasValidContact award = true := by
  by_cases hv : hasValidContact award
  · by_cases hp : isAlreadyProcessed s (jsId award)
    · simp [generateEmail, hv, hp] at h
    · cases hsel : selectVariants cfg rt ro rc with
      | error e => simp [generateEmail, hv, hp, hsel] at h
      | ok v =>
        cases response with
        | none => simp [generateEmail, hv, hp, hsel] at h
        | some emailData =>
          simp [generateEmail, hv, hp, hsel] at h
          split at h
          · simp at h
          · dsimp only at h
            simp only [Except.ok.injEq] at h
            refine ⟨?_, by simpa using hp, hv⟩
            rw [← h]
  · simp [generateEmail, hv] at h

/-- C1 counterexample: starting from a store in which award id `A1` lies
only in drafts (so in at most one status collection), calling `markAsSent`
on a record carrying that id writes a copy into sent without removing the
draft, leaving the id in two collections. -/
theorem markAsSent_from_drafts_counterexample :
    countPresence
      { drafts := [("A1", some (sampleRecord "A1" (some "a@b.edu")))],
        approved := [], sent := [], skipped := [] } "A1" ≤ 1 ∧
    ¬(countPresence
        (markAsSent "t1" (sampleRecord "A1" (some "a@b.edu")) (some "r1")
          { drafts := [("A1", some (sampleRecord "A1" (some "a@b.edu")))],
            approved := [], sent := [], skipped := [] }).2 "A1" ≤ 1) := by
  decide

/-- C1 (amended): starting from a store state in which an id appears in at
most one of {drafts, approved, sent, skipped}, generation-plus-save and the
review approve/skip moves preserve that bound unconditionally, and
`markAsSent` preserves it provided the record's id is not currently in
drafts or skipped (as holds whenever the sender invokes it, on records read
from approved); moreover when an award's id is already present in any of
the four collections, `generateEmail` refuses before the model call, with
the already-processed error whenever the contact is valid. -/
theorem at_most_one_preserved
    (s : StoreState) (id fid : String) (award : Award) (cfg : VariantsConfig)
    (rt ro rc : Nat) (response : Option ModelOutput)
    (senderName fromNameEnv : Option String) (now now2 : String)
    (email : OutreachRecord) (rid : Option String)
    (h : countPresence s id ≤ 1) :
    countPresence (generateAndSave award cfg rt ro rc response senderName
      fromNameEnv now s) id ≤ 1 ∧
    countPresence (approveDraft s fid) id ≤ 1 ∧
    countPresence (skipDraft s fid) id ≤ 1 ∧
    (folderHas s.drafts email.award_id = false →
      folderHas s.skipped email.award_id = false →
      countPresence (markAsSent now2 email rid s).2 id ≤ 1) ∧
    (isAlreadyProcessed s (jsId award) = true →
      (generateEmail award cfg rt ro rc response senderName fromNameEnv
        now s).1 = false ∧
      isOkE (generateEmail award cfg rt ro rc response senderName fromNameEnv
        now s).2 = false ∧
      (hasValidContact award = true →
        (generateEmail award cfg rt ro rc response senderName fromNameEnv
          now s).2 = Except.error ("Award " ++ jsId award ++
            " has already been processed (draft, approved, sent, or skipped)"))) := by
  refine ⟨?_, ?_, ?_, ?_, ?_⟩
  · unfold generateAndSave
    cases hg : (generateEmail award cfg rt ro rc response senderName
        fromNameEnv now s).2 with
    | error e => exact h
    | ok email' =>
      obtain ⟨hid, hnp, -⟩ := generateEmail_ok_spec hg
      rw [isAlreadyProcessed_eq] at hnp
      have h1 := (Bool.or_eq_false_iff.mp hnp)
      have h2 := Bool.or_eq_false_iff.mp h1.1
      have h3 := Bool.or_eq_false_iff.mp h2.1
      simp only [saveDraft, countPresence, folderHas_listWrite]
      by_cases hx : id = email'.award_id
      · rw [hid] at hx
        subst hx
        simp [h1.2, h2.2, h3.1, h3.2, hid]
      · rw [if_neg hx]
        exact h
  · unfold approveDraft
    cases hf : folderFind s.drafts fid with
    | none => exact h
    | some content =>
      have hdft : folderHas s.drafts fid = true := folderHas_of_find_some hf
      simp only [countPresence, folderHas_listErase, folderHas_listWrite]
      by_cases hx : id = fid
      · subst hx
        simp only [if_pos rfl]
        unfold countPresence at h
        rw [hdft] at h
        by_cases h3 : folderHas s.sent id <;>
          by_cases h4 : folderHas s.skipped id <;>
          by_cases h2 : folderHas s.approved id <;>
          simp [h2, h3, h4] at h ⊢
      · simp only [if_neg hx]
        exact h
  · unfold skipDraft
    cases hf : folderFind s.drafts fid with
    | none => exact h
    | some content =>
      have hdft : folderHas s.drafts fid = true := folderHas_of_find_some hf
      simp only [countPresence, folderHas_listErase, folderHas_listWrite]
      by_cases hx : id = fid
      · subst hx
        simp only [if_pos rfl]
        unfold countPresence at h
        rw [hdft] at h
        by_cases h3 : folderHas s.sent id <;>
          by_cases h2 : folderHas s.approved id <;>
          by_cases h4 : folderHas s.skipped id <;>
          simp [h2, h3, h4] at h ⊢
      · simp only [if_neg hx]
        exact h
  · intro hd hs
    simp only [markAsSent, countPresence, folderHas_listWrite,
      folderHas_listErase]
    by_cases hx : id = email.award_id
    · subst hx
      simp [hd, hs]
    · simp only [if_neg hx]
      exact h
  · intro hp
    by_cases hv : hasValidContact award
    · refine ⟨?_, ?_, fun _ => ?_⟩ <;> simp [generateEmail, hv, hp, isOkE]
    · refine ⟨?_, ?_, fun hc => absurd hc (by simpa using hv)⟩ <;>
        simp [generateEmail, hv, isOkE]

/-- Concrete instantiation of the amended C1 theorem on an empty store. -/
theorem at_most_one_preserved_witness :
    countPresence { drafts := [], approved := [], sent := [], skipped := [] }
      "2300001" ≤ 1 ∧
    countPresence (generateAndSave sampleAward ⟨[], [], []⟩ 0 0 0 none none
      none "g1" { drafts := [], approved := [], sent := [], skipped := [] })
      "2300001" ≤ 1 :=
  ⟨by decide,
    (at_most_one_preserved
      { drafts := [], approved := [], sent := [], skipped := [] }
      "2300001" "F1" sampleAward ⟨[], [], []⟩ 0 0 0 none none none "g1" "t2"
      (sampleRecord "X1" none) none (by decide)).1⟩

/-- C9: the record `markAsSent` writes into the sent collection is
field-for-field equal to its input except that `sent_at` is set to the
current timestamp and `resend_id` to the provider confirmation id. -/
theorem markAsSent_frame (now : String) (email : OutreachRecord)
    (rid : Option String) (s : StoreState) :
    folderFind (markAsSent now email rid s).2.sent email.award_id =
      some (some (markAsSent now email rid s).1) ∧
    (markAsSent now email rid s).1.sent_at = some now ∧
    (markAsSent now email rid s).1.resend_id = rid ∧
    (markAsSent now email rid s).1.award_id = email.award_id ∧
    (markAsSent now email rid s).1.pi_name = email.pi_name ∧
    (markAsSent now email rid s).1.pi_email = email.pi_email ∧
    (markAsSent now email rid s).1.institution = email.institution ∧
    (markAsSent now email rid s).1.award_title = email.award_title ∧
    (markAsSent now email rid s).1.award_amount = email.award_amount ∧
    (markAsSent now email rid s).1.subject = email.subject ∧
    (markAsSent now email rid s).1.body = email.body ∧
    (markAsSent now email rid s).1.variants = email.variants ∧
    (markAsSent now email rid s).1.generated_at = email.generated_at := by
  refine ⟨?_, rfl, rfl, rfl, rfl, rfl, rfl, rfl, rfl, rfl, rfl, rfl, rfl⟩
  simp [markAsSent, folderFind_listWrite]

/-- Concrete instantiation of the C9 frame theorem. -/
theorem markAsSent_frame_witness :
    folderFind (markAsSent "t9" (sampleRecord "A9" (some "a@b.edu"))
        (some "r9") emptyStore).2.sent "A9" =
      some (some (markAsSent "t9" (sampleRecord "A9" (some "a@b.edu"))
        (some "r9") emptyStore).1) :=
  (markAsSent_frame "t9" (sampleRecord "A9" (some "a@b.edu")) (some "r9")
    emptyStore).1

/-- C5: an award without a valid contact is rejected by `generateEmail`
before the model call (flag `false`) with the invalid-contact error, and
`hasValidContact` holds exactly when a PI email is present and contains
`@`. -/
theorem generateEmail_requires_valid_contact
    (award : Award) (cfg : VariantsConfig) (rt ro rc : Nat)
    (response : Option ModelOutput) (senderName fromNameEnv : Option String)
    (now : String) (s : StoreState) :
    (hasValidContact award = false →
      generateEmail award cfg rt ro rc response senderName fromNameEnv now s =
        (false, Except.error "Award does not have valid PI email")) ∧
    (hasValidContact award = true ↔
      ∃ e, (extractPIInfo award).piEmail = some e ∧ strIncludes e "@" = true) := by
  constructor
  · intro h
    simp [generateEmail, h]
  · unfold hasValidContact
    cases hpe : (extractPIInfo award).piEmail with
    | none => simp [jsTruthyS]
    | some e =>
      simp only [hpe, Option.getD]
      constructor
      · intro hb
        rw [Bool.and_eq_true] at hb
        exact ⟨e, rfl, hb.2⟩
      · rintro ⟨e2, he2, hc⟩
        have he3 : e2 = e := by
          injection he2.symm
        subst he3
        rw [Bool.and_eq_true]
        refine ⟨?_, hc⟩
        by_cases hem : e2 = ""
        · subst hem
          exact absurd hc (by decide)
        · simpa [jsTruthyS] using hem

/-- Concrete instantiation of the C5 theorem: a PI entry without an email
address is rejected before the model call. -/
theorem generateEmail_requires_valid_contact_witness :
    generateEmail sampleAwardNoEmail ⟨[], [], []⟩ 0 0 0 none none none "g5"
        emptyStore =
      (false, Except.error "Award does not have valid PI email") :=
  (generateEmail_requires_valid_contact sampleAwardNoEmail ⟨[], [], []⟩ 0 0 0
    none none none "g5" emptyStore).1 (by decide)

lemma mem_filterEnabled {items : List VariantItem} {it : VariantItem}
    (h : it ∈ filterEnabled items) : it.enabled ≠ some false := by
  have := List.mem_filter.mp h
  simpa using this.2

/-- C4: every triple `selectVariants` returns consists of enabled items of
the three facets (never an item marked `enabled = false`), and it fails
exactly when some facet has no enabled item. -/
theorem selectVariants_enabled_only (cfg : VariantsConfig) (rt ro rc : Nat) :
    (∀ v, selectVariants cfg rt ro rc = Except.ok v →
      v.template ∈ filterEnabled cfg.templates ∧
      v.ouro_description ∈ filterEnabled cfg.ouro_descriptions ∧
      v.call_to_action ∈ filterEnabled cfg.call_to_actions ∧
      v.template.enabled ≠ some false ∧
      v.ouro_description.enabled ≠ some false ∧
      v.call_to_action.enabled ≠ some false) ∧
    (isOkE (selectVariants cfg rt ro rc) = false ↔
      (filterEnabled cfg.templates = [] ∨
        filterEnabled cfg.ouro_descriptions = [] ∨
        filterEnabled cfg.call_to_actions = [])) := by
  constructor
  · intro v hv
    by_cases ht : (filterEnabled cfg.templates).length = 0
    · simp [selectVariants, ht] at hv
    · by_cases ho : (filterEnabled cfg.ouro_descriptions).length = 0
      · simp [selectVariants, ht, ho] at hv
      · by_cases hc : (filterEnabled cfg.call_to_actions).length = 0
        · simp [selectVariants, ht, ho, hc] at hv
        · simp only [selectVariants, ht, ho, hc, dif_neg,
            not_false_eq_true, Except.ok.injEq] at hv
          subst hv
          refine ⟨List.get_mem _ _ _, List.get_mem _ _ _,
            List.get_mem _ _ _, ?_, ?_, ?_⟩
          · exact mem_filterEnabled (List.get_mem _ _ _)
          · exact mem_filterEnabled (List.get_mem _ _ _)
          · exact mem_filterEnabled (List.get_mem _ _ _)
  · by_cases ht : (filterEnabled cfg.templates).length = 0
    · simp [selectVariants, ht, isOkE, List.length_eq_zero.mp ht]
    · by_cases ho : (filterEnabled cfg.ouro_descriptions).length = 0
      · simp [selectVariants, ht, ho, isOkE, List.length_eq_zero.mp ho]
      · by_cases hc : (filterEnabled cfg.call_to_actions).length = 0
        · simp [selectVariants, ht, ho, hc, isOkE,
            List.length_eq_zero.mp hc]
        · simp [selectVariants, ht, ho, hc, isOkE, ← List.length_eq_zero]

/-- Concrete instantiation of the C4 theorem on Scenario B's configuration:
two enabled templates, one disabled ouro_description, one enabled
call_to_action; selection fails with a configuration error (and so never
yields the disabled description). -/
theorem selectVariants_enabled_only_witness :
    isOkE (selectVariants
      { templates := [sampleItem "t1" none, sampleItem "t2" (some true)],
        ouro_descriptions := [sampleItem "d1" (some false)],
        call_to_actions := [sampleItem "c1" (some true)] } 0 0 0) = false :=
  (selectVariants_enabled_only
    { templates := [sampleItem "t1" none, sampleItem "t2" (some true)],
      ouro_descriptions := [sampleItem "d1" (some false)],
      call_to_actions := [sampleItem "c1" (some true)] } 0 0 0).2.mpr
    (Or.inr (Or.inl (by decide)))

lemma searchTextOf_normalize_ne (a : Award) (id year : String) :
    searchTextOf (normalizeAward a id year) ≠ "" := by
  intro h
  have h2 := congrArg String.length h
  rw [searchTextOf] at h2
  rw [String.length_append, String.length_append] at h2
  have h3 : (" " : String).length = 1 := rfl
  rw [h3] at h2
  simp at h2

lemma matchesKeywords_iff (a : Award) (id year : String)
    (keywords : List String) :
    matchesKeywords (searchTextOf (normalizeAward a id year)) keywords =
        true ↔
      (keywords = [] ∨ ∃ kw ∈ keywords,
        strIncludes (jsToLower (searchTextOf (normalizeAward a id year)))
          (jsToLower kw) = true) := by
  by_cases hk : keywords.isEmpty
  · simp [matchesKeywords, hk, List.isEmpty_iff.mp hk]
  · rw [matchesKeywords, if_neg hk,
      if_neg (searchTextOf_normalize_ne a id year)]
    have hne : keywords ≠ [] := by
      intro hc
      exact hk (by simp [hc])
    simp [List.any_eq_true, hne]

/-- C8: `loadAwards` retains exactly the readable records of the year
partition whose lowercased title-plus-abstract text contains some keyword,
and retains every readable record when the keyword list is empty. -/
theorem loadAwards_keyword_filter (partition : List (String × Option Award))
    (year : String) (keywords : List String) :
    (∀ n, n ∈ loadAwards partition year keywords ↔
      ∃ id a, (id, some a) ∈ partition ∧ n = normalizeAward a id year ∧
        (keywords = [] ∨ ∃ kw ∈ keywords,
          strIncludes (jsToLower (searchTextOf n)) (jsToLower kw) = true)) ∧
    (keywords = [] → ∀ id a, (id, some a) ∈ partition →
      normalizeAward a id year ∈ loadAwards partition year keywords) := by
  have main : ∀ n, n ∈ loadAwards partition year keywords ↔
      ∃ id a, (id, some a) ∈ partition ∧ n = normalizeAward a id year ∧
        (keywords = [] ∨ ∃ kw ∈ keywords,
          strIncludes (jsToLower (searchTextOf n)) (jsToLower kw) = true) := by
    induction partition with
    | nil => simp [loadAwards]
    | cons p rest ih =>
      rcases p with ⟨id0, o⟩
      cases o with
      | none =>
        intro n
        rw [loadAwards]
        rw [ih n]
        constructor
        · rintro ⟨id, a, hmem, hn, hcond⟩
          exact ⟨id, a, List.mem_cons_of_mem _ hmem, hn, hcond⟩
        · rintro ⟨id, a, hmem, hn, hcond⟩
          rcases List.mem_cons.mp hmem with hh | ht
          · exact absurd (congrArg Prod.snd hh) (by simp)
          · exact ⟨id, a, ht, hn, hcond⟩
      | some a =>
        intro n
        by_cases hm :
            matchesKeywords (searchTextOf (normalizeAward a id0 year))
              keywords = true
        · rw [loadAwards, if_pos hm]
          constructor
          · intro hn
            rcases List.mem_cons.mp hn with hh | ht
            · subst hh
              exact ⟨id0, a, List.mem_cons_self _ _, rfl,
                (matchesKeywords_iff a id0 year keywords).mp hm⟩
            · obtain ⟨id, a2, hmem, hn2, hcond⟩ := (ih n).mp ht
              exact ⟨id, a2, List.mem_cons_of_mem _ hmem, hn2, hcond⟩
          · rintro ⟨id, a2, hmem, hn2, hcond⟩
            rcases List.mem_cons.mp hmem with hh | ht
            · have hid : id = id0 := congrArg Prod.fst hh
              have ha : a2 = a := by
                have := congrArg Prod.snd hh
                simpa using this
              subst hid
              subst ha
              subst hn2
              exact List.mem_cons_self _ _
            · exact List.mem_cons_of_mem _ ((ih n).mpr ⟨id, a2, ht, hn2, hcond⟩)
        · rw [loadAwards, if_neg hm]
          rw [ih n]
          constructor
          · rintro ⟨id, a2, hmem, hn2, hcond⟩
            exact ⟨id, a2, List.mem_cons_of_mem _ hmem, hn2, hcond⟩
          · rintro ⟨id, a2, hmem, hn2, hcond⟩
            rcases List.mem_cons.mp hmem with hh | ht
            · have hid : id = id0 := congrArg Prod.fst hh
              have ha : a2 = a := by
                have := congrArg Prod.snd hh
                simpa using this
              subst hid
              subst ha
              subst hn2
              exact absurd ((matchesKeywords_iff a2 id year keywords).mpr
                hcond) hm
            · exact ⟨id, a2, ht, hn2, hcond⟩
  refine ⟨main, ?_⟩
  intro hk id a hmem
  exact (main (normalizeAward a id year)).mpr ⟨id, a, hmem, rfl, Or.inl hk⟩

/-- Concrete instantiation of the C8 theorem on Scenario A: the award with
title `X` and abstract `Y` is excluded under keywords `["DFT"]` and
included under `[]`. -/
theorem loadAwards_keyword_filter_witness :
    (¬ normalizeAward awardXY "2301234" "2023" ∈
        loadAwards [("2301234", some awardXY)] "2023" ["DFT"]) ∧
    normalizeAward awardXY "2301234" "2023" ∈
      loadAwards [("2301234", some awardXY)] "2023" [] := by
  constructor
  · intro hmem
    obtain ⟨id, a, hin, heq, hcond⟩ :=
      ((loadAwards_keyword_filter [("2301234", some awardXY)] "2023"
        ["DFT"]).1 _).mp hmem
    have hid : id = "2301234" := by
      have := List.mem_singleton.mp hin
      exact congrArg Prod.fst this
    have ha : a = awardXY := by
      have := congrArg Prod.snd (List.mem_singleton.mp hin)
      simpa using this
    subst hid
    subst ha
    rcases hcond with h | ⟨kw, hkw, hinc⟩
    · exact absurd h (by decide)
    · have hkw2 : kw = "DFT" := List.mem_singleton.mp hkw
      subst hkw2
      rw [heq] at hinc
      exact absurd hinc (by decide)
  · exact ((loadAwards_keyword_filter [("2301234", some awardXY)] "2023"
      []).1 _).mpr ⟨"2301234", awardXY, List.mem_singleton.mpr rfl, rfl,
        Or.inl rfl⟩

/-! ## Sender lemmas -/

lemma sendEmail_dryRun_events (email : OutreachRecord)
    (outcome : Except String (Option String)) :
    (sendEmail email true outcome).2 = [] := by
  by_cases h : jsTruthyS email.pi_email <;> simp [sendEmail, h]

lemma sendLoop_dryRun_cons (dp : Nat → Except String (Option String))
    (now : String) (delay : Int) (total i : Nat) (e : OutreachRecord)
    (rest : List OutreachRecord) (s : StoreState) :
    sendLoop dp now true delay total i (e :: rest) s =
      (if jsTruthyS e.pi_email then
        { sentList := { awardId := e.award_id, recipient := e.pi_email,
                        subject := e.subject, resendId := none } ::
            (sendLoop dp now true delay total (i + 1) rest s).sentList,
          errList := (sendLoop dp now true delay total (i + 1) rest s).errList,
          state := (sendLoop dp now true delay total (i + 1) rest s).state,
          events := SendEvent.progress e.award_id ::
            (sendLoop dp now true delay total (i + 1) rest s).events }
      else
        { sentList := (sendLoop dp now true delay total (i + 1) rest s).sentList,
          errList := { awardId := e.award_id, recipient := e.pi_email,
                       error := "No recipient email address" } ::
            (sendLoop dp now true delay total (i + 1) rest s).errList,
          state := (sendLoop dp now true delay total (i + 1) rest s).state,
          events := SendEvent.progress e.award_id ::
            (sendLoop dp now true delay total (i + 1) rest s).events }) := by
  by_cases h : jsTruthyS e.pi_email <;>
    simp [sendLoop, sendEmail, h]

lemma sendLoop_dryRun (dp : Nat → Except String (Option String))
    (now : String) (delay : Int) (total : Nat) :
    ∀ (rest : List OutreachRecord) (i : Nat) (s : StoreState),
      (sendLoop dp now true delay total i rest s).state = s ∧
      ∀ r, SendEvent.apiCall r ∉
        (sendLoop dp now true delay total i rest s).events := by
  intro rest
  induction rest with
  | nil => intro i s; simp [sendLoop]
  | cons e rest ih =>
    intro i s
    rw [sendLoop_dryRun_cons]
    by_cases h : jsTruthyS e.pi_email
    · rw [if_pos h]
      refine ⟨(ih (i + 1) s).1, ?_⟩
      intro r hr
      simp only [List.mem_cons] at hr
      rcases hr with hr | hr
      · simp at hr
      · exact (ih (i + 1) s).2 r hr
    · rw [if_neg h]
      refine ⟨(ih (i + 1) s).1, ?_⟩
      intro r hr
      simp only [List.mem_cons] at hr
      rcases hr with hr | hr
      · simp at hr
      · exact (ih (i + 1) s).2 r hr

/-- C7: a real (non-dry-run) send with a missing provider credential, or a
missing/empty sender address, fails fast with the configuration error: the
returned state is the initial state and no events occur. -/
theorem sendApprovedEmails_config_fail_fast
    (apiKey : Option String) (limit : Nat) (delay : Int)
    (fromEmail : Option String) (dp : Nat → Except String (Option String))
    (now : String) (s : StoreState) :
    (jsTruthyS apiKey = false →
      sendApprovedEmails apiKey limit delay false fromEmail dp now s =
        { result := Except.error "RESEND_API_KEY not set in environment",
          state := s, events := [] }) ∧
    (jsTruthyS apiKey = true → jsTruthyS fromEmail = false →
      sendApprovedEmails apiKey limit delay false fromEmail dp now s =
        { result := Except.error "fromEmail is required",
          state := s, events := [] }) := by
  constructor
  · intro h
    simp [sendApprovedEmails, h]
  · intro h1 h2
    simp [sendApprovedEmails, h1, h2]

/-- Concrete instantiation of the C7 theorem: missing credential. -/
theorem sendApprovedEmails_config_fail_fast_witness :
    sendApprovedEmails none 10 60 false (some "me@x.org")
        (fun _ => Except.ok (some "r")) "t7" oneApprovedStore =
      { result := Except.error "RESEND_API_KEY not set in environment",
        state := oneApprovedStore, events := [] } :=
  (sendApprovedEmails_config_fail_fast none 10 60 (some "me@x.org")
    (fun _ => Except.ok (some "r")) "t7" oneApprovedStore).1 (by decide)

/-- C3: a dry run leaves all four status collections exactly as they were,
makes no external delivery call, and still returns a dry-run flagged
result. -/
theorem sendApprovedEmails_dry_run_frame
    (apiKey fromEmail : Option String) (limit : Nat) (delay : Int)
    (dp : Nat → Except String (Option String)) (now : String)
    (s : StoreState) :
    (sendApprovedEmails apiKey limit delay true fromEmail dp now s).state =
      s ∧
    (∀ r, SendEvent.apiCall r ∉
      (sendApprovedEmails apiKey limit delay true fromEmail dp now s).events) ∧
    isOkE (sendApprovedEmails apiKey limit delay true fromEmail dp now
      s).result = true ∧
    (okResults (sendApprovedEmails apiKey limit delay true fromEmail dp now
      s).result).wasDryRun = true := by
  have hloop := sendLoop_dryRun dp now delay
    ((getApprovedEmails s).take limit).length
    ((getApprovedEmails s).take limit) 0 s
  refine ⟨?_, ?_, ?_, ?_⟩
  · simpa [sendApprovedEmails] using hloop.1
  · intro r
    simpa [sendApprovedEmails] using hloop.2 r
  · simp [sendApprovedEmails, isOkE]
  · simp [sendApprovedEmails, okResults]

/-- Concrete instantiation of the C3 theorem: a dry run over a store with
one approved record leaves the store unchanged. -/
theorem sendApprovedEmails_dry_run_frame_witness :
    (sendApprovedEmails none 10 60 true none
        (fun _ => Except.error "boom") "t3" oneApprovedStore).state =
      oneApprovedStore :=
  (sendApprovedEmails_dry_run_frame none none 10 60
    (fun _ => Except.error "boom") "t3" oneApprovedStore).1

lemma sendEmail_events_cases (e : OutreachRecord) (d : Bool)
    (o : Except String (Option String)) :
    (sendEmail e d o).2 = [] ∨
    (sendEmail e d o).2 = [SendEvent.apiCall e.pi_email] := by
  by_cases h : jsTruthyS e.pi_email
  · cases d
    · cases o <;> simp [sendEmail, h]
    · simp [sendEmail, h]
  · simp [sendEmail, h]

lemma sendLoop_cons_error {dp : Nat → Except String (Option String)}
    {now : String} {d : Bool} {delay : Int} {total i : Nat}
    {e : OutreachRecord} {rest : List OutreachRecord} {s : StoreState}
    {msg : String} {evs : List SendEvent}
    (hse : sendEmail e d (dp i) = (Except.error msg, evs)) :
    sendLoop dp now d delay total i (e :: rest) s =
      { sentList := (sendLoop dp now d delay total (i + 1) rest s).sentList,
        errList := (⟨e.award_id, e.pi_email, msg⟩ : ErrorEntry) ::
          (sendLoop dp now d delay total (i + 1) rest s).errList,
        state := (sendLoop dp now d delay total (i + 1) rest s).state,
        events := SendEvent.progress e.award_id ::
          (evs ++ (sendLoop dp now d delay total (i + 1) rest s).events) } := by
  simp [sendLoop, hse]

lemma sendLoop_cons_ok {dp : Nat → Except String (Option String)}
    {now : String} {d : Bool} {delay : Int} {total i : Nat}
    {e : OutreachRecord} {rest : List OutreachRecord} {s : StoreState}
    {result : SendOk} {evs : List SendEvent}
    (hse : sendEmail e d (dp i) = (Except.ok result, evs)) :
    sendLoop dp now d delay total i (e :: rest) s =
      { sentList :=
          (⟨e.award_id, e.pi_email, e.subject, result.resendId⟩ : SentEntry) ::
          (sendLoop dp now d delay total (i + 1) rest
            (if d then s else (markAsSent now e result.resendId s).2)).sentList,
        errList := (sendLoop dp now d delay total (i + 1) rest
          (if d then s else (markAsSent now e result.resendId s).2)).errList,
        state := (sendLoop dp now d delay total (i + 1) rest
          (if d then s else (markAsSent now e result.resendId s).2)).state,
        events := SendEvent.progress e.award_id ::
          (evs ++
            (if ¬d ∧ i < total - 1 ∧ delay > 0 then
              [SendEvent.slept (delay * 1000)] else []) ++
            (sendLoop dp now d delay total (i + 1) rest
              (if d then s
               else (markAsSent now e result.resendId s).2)).events) } := by
  simp [sendLoop, hse]

lemma sendLoop_entries (dp : Nat → Except String (Option String))
    (now : String) (d : Bool) (delay : Int) (total : Nat) :
    ∀ (rest : List OutreachRecord) (i : Nat) (s : StoreState),
      (∀ x ∈ (sendLoop dp now d delay total i rest s).sentList,
        ∃ e ∈ rest, x.awardId = e.award_id) ∧
      (∀ x ∈ (sendLoop dp now d delay total i rest s).errList,
        ∃ e ∈ rest, x.awardId = e.award_id) := by
  intro rest
  induction rest with
  | nil => intro i s; simp [sendLoop]
  | cons e rest ih =>
    intro i s
    rcases hse : sendEmail e d (dp i) with ⟨res, evs⟩
    cases res with
    | error msg =>
      rw [sendLoop_cons_error hse]
      constructor
      · intro x hx
        obtain ⟨e2, he2, hx2⟩ := (ih (i + 1) s).1 x hx
        exact ⟨e2, List.mem_cons_of_mem _ he2, hx2⟩
      · intro x hx
        rcases List.mem_cons.mp hx with hh | ht
        · exact ⟨e, List.mem_cons_self _ _, by rw [hh]⟩
        · obtain ⟨e2, he2, hx2⟩ := (ih (i + 1) s).2 x ht
          exact ⟨e2, List.mem_cons_of_mem _ he2, hx2⟩
    | ok result =>
      rw [sendLoop_cons_ok hse]
      constructor
      · intro x hx
        rcases List.mem_cons.mp hx with hh | ht
        · exact ⟨e, List.mem_cons_self _ _, by rw [hh]⟩
        · obtain ⟨e2, he2, hx2⟩ := (ih (i + 1) _).1 x ht
          exact ⟨e2, List.mem_cons_of_mem _ he2, hx2⟩
      · intro x hx
        obtain ⟨e2, he2, hx2⟩ := (ih (i + 1)
          (if d then s else (markAsSent now e result.resendId s).2)).2 x hx
        exact ⟨e2, List.mem_cons_of_mem _ he2, hx2⟩

lemma sendLoop_apiCall_count (dp : Nat → Except String (Option String))
    (now : String) (d : Bool) (delay : Int) (total : Nat) :
    ∀ (rest : List OutreachRecord) (i : Nat) (s : StoreState),
      (sendLoop dp now d delay total i rest s).events.countP isApiCallEv ≤
        rest.length := by
  intro rest
  induction rest with
  | nil => intro i s; simp [sendLoop]
  | cons e rest ih =>
    intro i s
    have hev : (sendEmail e d (dp i)).2.countP isApiCallEv ≤ 1 := by
      rcases sendEmail_events_cases e d (dp i) with h | h <;>
        simp [h, List.countP_cons, isApiCallEv]
    rcases hse : sendEmail e d (dp i) with ⟨res, evs⟩
    rw [hse] at hev
    cases res with
    | error msg =>
      rw [sendLoop_cons_error hse]
      simp only [List.countP_cons, List.countP_append, isApiCallEv,
        List.length_cons]
      have := ih (i + 1) s
      simp at hev ⊢
      omega
    | ok result =>
      rw [sendLoop_cons_ok hse]
      have hloop := ih (i + 1)
        (if d then s else (markAsSent now e result.resendId s).2)
      have hsl : List.countP isApiCallEv
          (if ¬d ∧ i < total - 1 ∧ delay > 0 then
            [SendEvent.slept (delay * 1000)] else []) = 0 := by
        by_cases hg : ¬d ∧ i < total - 1 ∧ delay > 0
        · rw [if_pos hg]
          simp [isApiCallEv]
        · rw [if_neg hg]
          simp
      simp only [List.countP_cons, List.countP_append, List.length_cons]
      rw [hsl]
      simp only [isApiCallEv]
      simp at hev ⊢
      omega

/-- C10: `getApprovedEmails` yields exactly the parseable records of the
approved folder; a malformed file contributes nothing, so every entry of
the sender's sent and errors lists stems from a parseable approved record
and the number of delivery calls never exceeds the number of parseable
records. -/
theorem getApprovedEmails_skips_malformed
    (s : StoreState) (apiKey fromEmail : Option String) (limit : Nat)
    (delay : Int) (d : Bool) (dp : Nat → Except String (Option String))
    (now : String) :
    (∀ r, r ∈ getApprovedEmails s ↔ ∃ id, (id, some r) ∈ s.approved) ∧
    (∀ res, (sendApprovedEmails apiKey limit delay d fromEmail dp now
        s).result = Except.ok res →
      (∀ x ∈ res.sent, ∃ id r, (id, some r) ∈ s.approved ∧
        x.awardId = r.award_id) ∧
      (∀ x ∈ res.errors, ∃ id r, (id, some r) ∈ s.approved ∧
        x.awardId = r.award_id)) ∧
    (sendApprovedEmails apiKey limit delay d fromEmail dp now
        s).events.countP isApiCallEv ≤ (getApprovedEmails s).length := by
  have hmem : ∀ r, r ∈ getApprovedEmails s ↔
      ∃ id, (id, some r) ∈ s.approved := by
    intro r
    rw [getApprovedEmails, List.mem_filterMap]
    constructor
    · rintro ⟨⟨id, c⟩, hmem2, hc⟩
      dsimp at hc
      subst hc
      exact ⟨id, hmem2⟩
    · rintro ⟨id, hmem2⟩
      exact ⟨(id, some r), hmem2, rfl⟩
  have hfromTake : ∀ x, (∃ e ∈ (getApprovedEmails s).take limit,
      x = e.award_id) → ∃ id r, (id, some r) ∈ s.approved ∧
        x = r.award_id := by
    rintro x ⟨e, he, hx⟩
    obtain ⟨id, hid⟩ := (hmem e).mp (List.mem_of_mem_take he)
    exact ⟨id, e, hid, hx⟩
  refine ⟨hmem, ?_, ?_⟩
  · intro res hres
    by_cases h1 : ¬d ∧ ¬jsTruthyS apiKey
    · rw [sendApprovedEmails, if_pos h1] at hres
      simp at hres
    · by_cases h2 : ¬jsTruthyS fromEmail ∧ ¬d
      · rw [sendApprovedEmails, if_neg h1, if_pos h2] at hres
        simp at hres
      · rw [sendApprovedEmails, if_neg h1, if_neg h2] at hres
        have hres2 := Except.ok.inj hres
        have hl := sendLoop_entries dp now d delay
          ((getApprovedEmails s).take limit).length
          ((getApprovedEmails s).take limit) 0 s
        constructor
        · intro x hx
          rw [← hres2] at hx
          obtain ⟨e, he, hx2⟩ := hl.1 x hx
          exact hfromTake x.awardId ⟨e, he, hx2⟩
        · intro x hx
          rw [← hres2] at hx
          obtain ⟨e, he, hx2⟩ := hl.2 x hx
          exact hfromTake x.awardId ⟨e, he, hx2⟩
  · by_cases h1 : ¬d ∧ ¬jsTruthyS apiKey
    · rw [sendApprovedEmails, if_pos h1]
      simp
    · by_cases h2 : ¬jsTruthyS fromEmail ∧ ¬d
      · rw [sendApprovedEmails, if_neg h1, if_pos h2]
        simp
      · rw [sendApprovedEmails, if_neg h1, if_neg h2]
        calc (sendLoop dp now d delay
              ((getApprovedEmails s).take limit).length 0
              ((getApprovedEmails s).take limit) s).events.countP isApiCallEv
            ≤ ((getApprovedEmails s).take limit).length :=
              sendLoop_apiCall_count dp now d delay _ _ 0 s
          _ ≤ (getApprovedEmails s).length := by
              rw [List.length_take]
              exact min_le_right _ _

/-- Concrete instantiation of the C10 theorem on a store whose approved
folder holds one malformed file and one parseable record. -/
theorem getApprovedEmails_skips_malformed_witness :
    sampleRecord "A1" (some "a@b.edu") ∈ getApprovedEmails
      { drafts := [],
        approved := [("BAD", none),
          ("A1", some (sampleRecord "A1" (some "a@b.edu")))],
        sent := [], skipped := [] } ∧
    (sendApprovedEmails (some "k") 10 0 false (some "f@x.org")
        (fun _ => Except.error "boom") "t10"
        { drafts := [],
          approved := [("BAD", none),
            ("A1", some (sampleRecord "A1" (some "a@b.edu")))],
          sent := [], skipped := [] }).events.countP isApiCallEv ≤
      (getApprovedEmails
        { drafts := [],
          approved := [("BAD", none),
            ("A1", some (sampleRecord "A1" (some "a@b.edu")))],
          sent := [], skipped := [] }).length :=
  ⟨((getApprovedEmails_skips_malformed
      { drafts := [],
        approved := [("BAD", none),
          ("A1", some (sampleRecord "A1" (some "a@b.edu")))],
        sent := [], skipped := [] } (some "k") (some "f@x.org") 10 0 false
      (fun _ => Except.error "boom") "t10").1
      (sampleRecord "A1" (some "a@b.edu"))).mpr ⟨"A1", by decide⟩,
    (getApprovedEmails_skips_malformed
      { drafts := [],
        approved := [("BAD", none),
          ("A1", some (sampleRecord "A1" (some "a@b.edu")))],
        sent := [], skipped := [] } (some "k") (some "f@x.org") 10 0 false
      (fun _ => Except.error "boom") "t10").2.2⟩

lemma sfp_cons_progress (a : String) (t : List SendEvent) :
    sleptFollowedByProgress (SendEvent.progress a :: t) =
      sleptFollowedByProgress t := rfl

lemma sfp_cons_apiCall (r : Option String) (t : List SendEvent) :
    sleptFollowedByProgress (SendEvent.apiCall r :: t) =
      sleptFollowedByProgress t := rfl

lemma sfp_cons_slept (m : Int) (t : List SendEvent) :
    sleptFollowedByProgress (SendEvent.slept m :: t) =
      (t.any isProgressEv && sleptFollowedByProgress t) := rfl

lemma sendLoop_events_head (dp : Nat → Except String (Option String))
    (now : String) (d : Bool) (delay : Int) (total i : Nat)
    (e : OutreachRecord) (rest : List OutreachRecord) (s : StoreState) :
    ∃ t, (sendLoop dp now d delay total i (e :: rest) s).events =
      SendEvent.progress e.award_id :: t := by
  rcases hse : sendEmail e d (dp i) with ⟨res, evs⟩
  cases res with
  | error msg => exact ⟨_, by rw [sendLoop_cons_error hse]⟩
  | ok result => exact ⟨_, by rw [sendLoop_cons_ok hse]⟩

lemma sendLoop_slept_mem (dp : Nat → Except String (Option String))
    (now : String) (d : Bool) (delay : Int) (total : Nat) :
    ∀ (rest : List OutreachRecord) (i : Nat) (s : StoreState) (ms : Int),
      SendEvent.slept ms ∈ (sendLoop dp now d delay total i rest s).events →
      ms = delay * 1000 ∧ d = false ∧ delay > 0 := by
  intro rest
  induction rest with
  | nil => intro i s ms h; simp [sendLoop] at h
  | cons e rest ih =>
    intro i s ms h
    rcases hse : sendEmail e d (dp i) with ⟨res, evs⟩
    have hevs := sendEmail_events_cases e d (dp i)
    rw [hse] at hevs
    dsimp only at hevs
    cases res with
    | error msg =>
      rw [sendLoop_cons_error hse] at h
      simp only [List.mem_cons, List.mem_append] at h
      rcases h with h | h | h
      · simp at h
      · rcases hevs with he | he <;> rw [he] at h <;> simp at h
      · exact ih (i + 1) s ms h
    | ok result =>
      rw [sendLoop_cons_ok hse] at h
      simp only [List.mem_cons, List.mem_append] at h
      rcases h with h | (h | h) | h
      · simp at h
      · rcases hevs with he | he <;> rw [he] at h <;> simp at h
      · by_cases hg : ¬d ∧ i < total - 1 ∧ delay > 0
        · rw [if_pos hg] at h
          simp only [List.mem_singleton, SendEvent.slept.injEq] at h
          subst h
          exact ⟨rfl, by simpa using hg.1, hg.2.2⟩
        · rw [if_neg hg] at h
          simp at h
      · exact ih (i + 1) _ ms h

lemma sendLoop_sfp (dp : Nat → Except String (Option String))
    (now : String) (d : Bool) (delay : Int) (total : Nat) :
    ∀ (rest : List OutreachRecord) (i : Nat) (s : StoreState),
      i + rest.length = total →
      sleptFollowedByProgress
        (sendLoop dp now d delay total i rest s).events = true := by
  intro rest
  induction rest with
  | nil => intro i s hi; simp [sendLoop, sleptFollowedByProgress]
  | cons e rest ih =>
    intro i s hi
    have hi2 : (i + 1) + rest.length = total := by
      simp only [List.length_cons] at hi
      omega
    rcases hse : sendEmail e d (dp i) with ⟨res, evs⟩
    have hevs := sendEmail_events_cases e d (dp i)
    rw [hse] at hevs
    dsimp only at hevs
    cases res with
    | error msg =>
      rw [sendLoop_cons_error hse, sfp_cons_progress]
      rcases hevs with he | he <;> rw [he]
      · simpa using ih (i + 1) s hi2
      · rw [List.singleton_append, sfp_cons_apiCall]
        exact ih (i + 1) s hi2
    | ok result =>
      rw [sendLoop_cons_ok hse, sfp_cons_progress]
      by_cases hg : ¬d ∧ i < total - 1 ∧ delay > 0
      · rw [if_pos hg]
        have hrest : rest ≠ [] := by
          intro hr
          subst hr
          simp only [List.length_cons, List.length_nil] at hi
          omega
        obtain ⟨e2, rest2, hr2⟩ := List.exists_cons_of_ne_nil hrest
        subst hr2
        obtain ⟨t, ht⟩ := sendLoop_events_head dp now d delay total (i + 1)
          e2 rest2 (if d then s else (markAsSent now e result.resendId s).2)
        have hih := ih (i + 1)
          (if d then s else (markAsSent now e result.resendId s).2) hi2
        rw [ht] at hih
        rcases hevs with he | he <;> rw [he] <;>
            simp only [List.nil_append, List.cons_append,
              List.singleton_append]
        · rw [sfp_cons_slept, ht]
          simp [List.any_cons, isProgressEv, hih]
        · rw [sfp_cons_apiCall, sfp_cons_slept, ht]
          simp [List.any_cons, isProgressEv, hih]
      · rw [if_neg hg]
        rcases hevs with he | he <;> rw [he]
        · simpa using ih (i + 1) _ hi2
        · rw [List.append_nil, List.singleton_append, sfp_cons_apiCall]
          exact ih (i + 1) _ hi2

lemma countP_congr2 {α : Type} {l : List α} {p q : α → Bool}
    (h : ∀ x ∈ l, p x = q x) : l.countP p = l.countP q := by
  rw [List.countP_eq_length_filter, List.countP_eq_length_filter,
    List.filter_congr h]

lemma sendEmail_false_error_inv {e : OutreachRecord}
    {o : Except String (Option String)} {msg : String}
    {evs : List SendEvent}
    (h : sendEmail e false o = (Except.error msg, evs)) :
    (jsTruthyS e.pi_email && isOkE o) = false := by
  by_cases hp : jsTruthyS e.pi_email
  · cases o with
    | error m => simp [hp, isOkE]
    | ok rid => simp [sendEmail, hp] at h
  · have hp2 : jsTruthyS e.pi_email = false := by simpa using hp
    simp [hp2]

lemma sendEmail_false_ok_inv {e : OutreachRecord}
    {o : Except String (Option String)} {result : SendOk}
    {evs : List SendEvent}
    (h : sendEmail e false o = (Except.ok result, evs)) :
    (jsTruthyS e.pi_email && isOkE o) = true := by
  by_cases hp : jsTruthyS e.pi_email
  · cases o with
    | error m => simp [sendEmail, hp] at h
    | ok rid => simp [hp, isOkE]
  · simp [sendEmail, hp] at h

lemma sendLoop_slept_count (dp : Nat → Except String (Option String))
    (now : String) (delay : Int) (total : Nat) (hdel : delay > 0) :
    ∀ (rest : List OutreachRecord) (i : Nat) (s : StoreState),
      (sendLoop dp now false delay total i rest s).events.countP isSleptEv =
        (List.range rest.length).countP (fun k =>
          decide (i + k < total - 1) &&
          (match rest.get? k with
           | some e2 => jsTruthyS e2.pi_email && isOkE (dp (i + k))
           | none => false)) := by
  intro rest
  induction rest with
  | nil => intro i s; simp [sendLoop]
  | cons e rest ih =>
    intro i s
    have hrange : List.range (e :: rest).length =
        0 :: (List.range rest.length).map Nat.succ := by
      rw [List.length_cons, List.range_succ_eq_map]
    rw [hrange, List.countP_cons, List.countP_map]
    have hshift : ∀ k ∈ List.range rest.length,
        ((fun k => decide (i + k < total - 1) &&
          (match (e :: rest).get? k with
           | some e2 => jsTruthyS e2.pi_email && isOkE (dp (i + k))
           | none => false)) ∘ Nat.succ) k =
        (fun k => decide ((i + 1) + k < total - 1) &&
          (match rest.get? k with
           | some e2 => jsTruthyS e2.pi_email && isOkE (dp ((i + 1) + k))
           | none => false)) k := by
      intro k _
      have h1 : i + (k + 1) = (i + 1) + k := by omega
      simp only [Function.comp, List.get?_cons_succ, h1]
    rw [countP_congr2 hshift]
    rcases hse : sendEmail e false (dp i) with ⟨res, evs⟩
    have hevs := sendEmail_events_cases e false (dp i)
    rw [hse] at hevs
    dsimp only at hevs
    cases res with
    | error msg =>
      have hinv := sendEmail_false_error_inv hse
      rw [sendLoop_cons_error hse]
      simp only [List.countP_cons, List.countP_append]
      have hz : (List.countP isSleptEv evs) = 0 := by
        rcases hevs with he | he <;> rw [he] <;> simp [isSleptEv]
      rw [hz, ih (i + 1) s]
      simp only [List.get?_cons_zero, Nat.add_zero, hinv, Bool.and_false,
        isSleptEv]
      omega
    | ok result =>
      have hinv := sendEmail_false_ok_inv hse
      rw [sendLoop_cons_ok hse]
      simp only [List.countP_cons, List.countP_append]
      have hz : (List.countP isSleptEv evs) = 0 := by
        rcases hevs with he | he <;> rw [he] <;> simp [isSleptEv]
      have hg : (List.countP isSleptEv
          (if ¬false ∧ i < total - 1 ∧ delay > 0 then
            [SendEvent.slept (delay * 1000)] else [])) =
          if i < total - 1 then 1 else 0 := by
        by_cases hlt : i < total - 1
        · rw [if_pos (by exact ⟨by simp, hlt, hdel⟩), if_pos hlt]
          simp [isSleptEv]
        · rw [if_neg (by
            rintro ⟨-, h2, -⟩
            exact hlt h2), if_neg hlt]
          simp
      rw [hz, hg, ih (i + 1) _]
      simp only [List.get?_cons_zero, Nat.add_zero, hinv, Bool.and_true,
        isSleptEv]
      by_cases hlt : i < total - 1
      · rw [if_pos hlt]
        simp [hlt]
        omega
      · rw [if_neg hlt]
        simp [hlt]

lemma countP_range_guard (n : Nat) (p : Nat → Bool) :
    (List.range n).countP (fun k => decide (k < n - 1) && p k) =
      (List.range (n - 1)).countP p := by
  cases n with
  | zero => simp
  | succ m =>
    have hm : m + 1 - 1 = m := rfl
    rw [hm, List.range_succ, List.countP_append]
    have hlast : List.countP (fun k => decide (k < m) && p k) [m] = 0 := by
      simp
    rw [hlast, Nat.add_zero]
    apply countP_congr2
    intro k hk
    have := List.mem_range.mp hk
    simp [this]

/-- C6 counterexample: with `delay = 1` and two successfully dispatched
approved records, the sender sleeps 1000 milliseconds between them — the
delay parameter is interpreted as seconds (`sleep(delay * 1000)`), not as
milliseconds as the claim states. -/
theorem sleep_interpreted_as_seconds_counterexample :
    SendEvent.slept 1000 ∈ (sendApprovedEmails (some "key") 10 1 false
      (some "me@x.org") (fun _ => Except.ok (some "rid")) "t6"
      twoApprovedStore).events ∧
    SendEvent.slept 1 ∉ (sendApprovedEmails (some "key") 10 1 false
      (some "me@x.org") (fun _ => Except.ok (some "rid")) "t6"
      twoApprovedStore).events := by
  decide

/-- C6 (amended): every sleep of the sender lasts `delay * 1000`
milliseconds (the delay option counts seconds), only in non-dry runs with
`delay > 0`; every sleep is followed by a further processed item (never
after the final one); and in a real run with valid configuration and
`delay > 0` the number of sleeps equals the number of successfully
dispatched records at non-final positions of the batch. -/
theorem send_sleep_schedule
    (apiKey fromEmail : Option String) (limit : Nat) (delay : Int)
    (d : Bool) (dp : Nat → Except String (Option String)) (now : String)
    (s : StoreState) :
    (∀ ms, SendEvent.slept ms ∈
        (sendApprovedEmails apiKey limit delay d fromEmail dp now s).events →
      ms = delay * 1000 ∧ d = false ∧ delay > 0) ∧
    sleptFollowedByProgress
      (sendApprovedEmails apiKey limit delay d fromEmail dp now s).events =
      true ∧
    (d = false → jsTruthyS apiKey = true → jsTruthyS fromEmail = true →
      delay > 0 →
      (sendApprovedEmails apiKey limit delay d fromEmail dp now
          s).events.countP isSleptEv =
        (List.range (((getApprovedEmails s).take limit).length - 1)).countP
          (fun k => sendSuccessAt ((getApprovedEmails s).take limit) dp k)) := by
  refine ⟨?_, ?_, ?_⟩
  · intro ms hms
    by_cases h1 : ¬d ∧ ¬jsTruthyS apiKey
    · rw [sendApprovedEmails, if_pos h1] at hms
      simp at hms
    · by_cases h2 : ¬jsTruthyS fromEmail ∧ ¬d
      · rw [sendApprovedEmails, if_neg h1, if_pos h2] at hms
        simp at hms
      · rw [sendApprovedEmails, if_neg h1, if_neg h2] at hms
        exact sendLoop_slept_mem dp now d delay _ _ 0 s ms hms
  · by_cases h1 : ¬d ∧ ¬jsTruthyS apiKey
    · rw [sendApprovedEmails, if_pos h1]
      rfl
    · by_cases h2 : ¬jsTruthyS fromEmail ∧ ¬d
      · rw [sendApprovedEmails, if_neg h1, if_pos h2]
        rfl
      · rw [sendApprovedEmails, if_neg h1, if_neg h2]
        exact sendLoop_sfp dp now d delay _ _ 0 s (Nat.zero_add _)
  · intro hd hk hf hdel
    subst hd
    rw [sendApprovedEmails, if_neg (by simp [hk]), if_neg (by simp [hf])]
    rw [sendLoop_slept_count dp now delay _ hdel _ 0 s]
    rw [← countP_range_guard ((getApprovedEmails s).take limit).length
      (fun k => sendSuccessAt ((getApprovedEmails s).take limit) dp k)]
    apply countP_congr2
    intro k hk2
    simp only [Nat.zero_add, sendSuccessAt]

/-- Concrete instantiation of the amended C6 theorem: in the two-record
run every sleep is followed by a further processed item. -/
theorem send_sleep_schedule_witness :
    sleptFollowedByProgress (sendApprovedEmails (some "key") 10 1 false
      (some "me@x.org") (fun _ => Except.ok (some "rid")) "t6"
      twoApprovedStore).events = true :=
  (send_sleep_schedule (some "key") (some "me@x.org") 10 1 false
    (fun _ => Except.ok (some "rid")) "t6" twoApprovedStore).2.1

lemma sendLoop_untouched (dp : Nat → Except String (Option String))
    (now : String) (d : Bool) (delay : Int) (total : Nat) :
    ∀ (rest : List OutreachRecord) (i : Nat) (s : StoreState) (id : String),
      (∀ e ∈ rest, e.award_id ≠ id) →
      folderFind (sendLoop dp now d delay total i rest s).state.approved id =
        folderFind s.approved id ∧
      folderFind (sendLoop dp now d delay total i rest s).state.sent id =
        folderFind s.sent id := by
  intro rest
  induction rest with
  | nil => intro i s id h; simp [sendLoop]
  | cons e rest ih =>
    intro i s id h
    have hne : e.award_id ≠ id := h e (List.mem_cons_self _ _)
    have hrest : ∀ e2 ∈ rest, e2.award_id ≠ id :=
      fun e2 he2 => h e2 (List.mem_cons_of_mem _ he2)
    rcases hse : sendEmail e d (dp i) with ⟨res, evs⟩
    cases res with
    | error msg =>
      rw [sendLoop_cons_error hse]
      exact ih (i + 1) s id hrest
    | ok result =>
      rw [sendLoop_cons_ok hse]
      have hih := ih (i + 1)
        (if d then s else (markAsSent now e result.resendId s).2) id hrest
      cases d with
      | true => simpa using hih
      | false =>
        rw [if_neg Bool.false_ne_true] at hih
        rw [if_neg Bool.false_ne_true]
        refine ⟨?_, ?_⟩
        · rw [hih.1]
          simp only [markAsSent]
          rw [folderFind_listErase, if_neg (fun hc => hne hc.symm)]
        · rw [hih.2]
          simp only [markAsSent]
          rw [folderFind_listWrite, if_neg (fun hc => hne hc.symm)]

lemma sendLoop_frame (dp : Nat → Except String (Option String))
    (now : String) (d : Bool) (delay : Int) (total : Nat) :
    ∀ (rest : List OutreachRecord) (i : Nat) (s : StoreState),
      (sendLoop dp now d delay total i rest s).state.drafts = s.drafts ∧
      (sendLoop dp now d delay total i rest s).state.skipped = s.skipped := by
  intro rest
  induction rest with
  | nil => intro i s; simp [sendLoop]
  | cons e rest ih =>
    intro i s
    rcases hse : sendEmail e d (dp i) with ⟨res, evs⟩
    cases res with
    | error msg =>
      rw [sendLoop_cons_error hse]
      exact ih (i + 1) s
    | ok result =>
      rw [sendLoop_cons_ok hse]
      have hih := ih (i + 1)
        (if d then s else (markAsSent now e result.resendId s).2)
      cases d with
      | true => simpa using hih
      | false =>
        rw [if_neg Bool.false_ne_true] at hih
        rw [if_neg Bool.false_ne_true]
        simpa [markAsSent] using hih

lemma filter_entries_nil_sent {l : List SentEntry}
    {rest : List OutreachRecord} {aid : String}
    (hids : ∀ x ∈ l, ∃ e2 ∈ rest, x.awardId = e2.award_id)
    (hout : aid ∉ rest.map (fun e => e.award_id)) :
    l.filter (fun x => x.awardId == aid) = [] := by
  apply List.filter_eq_nil_iff.mpr
  intro x hx
  obtain ⟨e2, he2, hxid⟩ := hids x hx
  simp only [beq_iff_eq, hxid]
  intro hc
  exact hout (hc ▸ List.mem_map_of_mem (fun e => e.award_id) he2)

lemma filter_entries_nil_err {l : List ErrorEntry}
    {rest : List OutreachRecord} {aid : String}
    (hids : ∀ x ∈ l, ∃ e2 ∈ rest, x.awardId = e2.award_id)
    (hout : aid ∉ rest.map (fun e => e.award_id)) :
    l.filter (fun x => x.awardId == aid) = [] := by
  apply List.filter_eq_nil_iff.mpr
  intro x hx
  obtain ⟨e2, he2, hxid⟩ := hids x hx
  simp only [beq_iff_eq, hxid]
  intro hc
  exact hout (hc ▸ List.mem_map_of_mem (fun e => e.award_id) he2)

lemma sendLoop_records (dp : Nat → Except String (Option String))
    (now : String) (delay : Int) (total : Nat) :
    ∀ (rest : List OutreachRecord) (i : Nat) (s : StoreState),
      (∀ e ∈ rest, jsTruthyS e.pi_email = true) →
      (rest.map (fun e => e.award_id)).Nodup →
      ∀ k (hk : k < rest.length),
        (∀ msg, dp (i + k) = Except.error msg →
          (sendLoop dp now false delay total i rest s).errList.filter
              (fun x => x.awardId == (rest.get ⟨k, hk⟩).award_id) =
            [⟨(rest.get ⟨k, hk⟩).award_id,
              (rest.get ⟨k, hk⟩).pi_email, msg⟩] ∧
          (sendLoop dp now false delay total i rest s).sentList.filter
              (fun x => x.awardId == (rest.get ⟨k, hk⟩).award_id) = [] ∧
          folderFind (sendLoop dp now false delay total i rest s).state.approved
              (rest.get ⟨k, hk⟩).award_id =
            folderFind s.approved (rest.get ⟨k, hk⟩).award_id ∧
          folderFind (sendLoop dp now false delay total i rest s).state.sent
              (rest.get ⟨k, hk⟩).award_id =
            folderFind s.sent (rest.get ⟨k, hk⟩).award_id) ∧
        (∀ rid, dp (i + k) = Except.ok rid →
          (sendLoop dp now false delay total i rest s).sentList.filter
              (fun x => x.awardId == (rest.get ⟨k, hk⟩).award_id) =
            [⟨(rest.get ⟨k, hk⟩).award_id, (rest.get ⟨k, hk⟩).pi_email,
              (rest.get ⟨k, hk⟩).subject, rid⟩] ∧
          (sendLoop dp now false delay total i rest s).errList.filter
              (fun x => x.awardId == (rest.get ⟨k, hk⟩).award_id) = [] ∧
          folderFind (sendLoop dp now false delay total i rest s).state.sent
              (rest.get ⟨k, hk⟩).award_id =
            some (some { rest.get ⟨k, hk⟩ with
              sent_at := some now, resend_id := rid }) ∧
          folderFind (sendLoop dp now false delay total i rest s).state.approved
              (rest.get ⟨k, hk⟩).award_id = none) := by
  intro rest
  induction rest with
  | nil =>
    intro i s htr hnd k hk
    exact absurd hk (by simp)
  | cons e rest ih =>
    intro i s htr hnd k hk
    have hpe : jsTruthyS e.pi_email = true := htr e (List.mem_cons_self _ _)
    have hnd2 : (∀ x ∈ rest, ¬x.award_id = e.award_id) ∧
        (rest.map (fun e => e.award_id)).Nodup := by simpa using hnd
    have hout : e.award_id ∉ rest.map (fun x => x.award_id) := by
      intro hmem
      obtain ⟨x, hx, hfx⟩ := List.mem_map.mp hmem
      exact hnd2.1 x hx hfx
    have htr2 : ∀ e2 ∈ rest, jsTruthyS e2.pi_email = true :=
      fun e2 he2 => htr e2 (List.mem_cons_of_mem _ he2)
    have hins := sendLoop_entries dp now false delay total rest (i + 1)
    cases k with
    | zero =>
      have hget : (e :: rest).get ⟨0, hk⟩ = e := rfl
      rw [hget]
      constructor
      · intro msg hdp
        have hdp2 : dp i = Except.error msg := by rwa [Nat.add_zero] at hdp
        have hse : sendEmail e false (dp i) =
            (Except.error msg, [SendEvent.apiCall e.pi_email]) := by
          rw [hdp2]
          simp [sendEmail, hpe]
        rw [sendLoop_cons_error hse]
        have hnil_err := filter_entries_nil_err (l :=
          (sendLoop dp now false delay total (i + 1) rest s).errList)
          ((hins s).2) hout
        have hnil_sent := filter_entries_nil_sent (l :=
          (sendLoop dp now false delay total (i + 1) rest s).sentList)
          ((hins s).1) hout
        have huntouched := sendLoop_untouched dp now false delay total rest
          (i + 1) s e.award_id hnd2.1
        refine ⟨?_, hnil_sent, huntouched.1, huntouched.2⟩
        rw [List.filter_cons, if_pos (by simp)]
        rw [hnil_err]
      · intro rid hdp
        have hdp2 : dp i = Except.ok rid := by rwa [Nat.add_zero] at hdp
        have hse : sendEmail e false (dp i) =
            (Except.ok ⟨true, false, rid, e.pi_email, e.subject⟩,
             [SendEvent.apiCall e.pi_email]) := by
          rw [hdp2]
          simp [sendEmail, hpe]
        rw [sendLoop_cons_ok hse]
        rw [if_neg Bool.false_ne_true]
        have hnil_err := filter_entries_nil_err (l :=
          (sendLoop dp now false delay total (i + 1) rest
            (markAsSent now e rid s).2).errList)
          ((hins (markAsSent now e rid s).2).2) hout
        have hnil_sent := filter_entries_nil_sent (l :=
          (sendLoop dp now false delay total (i + 1) rest
            (markAsSent now e rid s).2).sentList)
          ((hins (markAsSent now e rid s).2).1) hout
        have huntouched := sendLoop_untouched dp now false delay total rest
          (i + 1) (markAsSent now e rid s).2 e.award_id hnd2.1
        refine ⟨?_, hnil_err, ?_, ?_⟩
        · rw [List.filter_cons, if_pos (by simp)]
          rw [hnil_sent]
        · rw [huntouched.2]
          simp only [markAsSent]
          rw [folderFind_listWrite, if_pos rfl]
        · rw [huntouched.1]
          simp only [markAsSent]
          rw [folderFind_listErase, if_pos rfl]
    | succ k =>
      have hk2 : k < rest.length := by simpa using Nat.lt_of_succ_lt_succ hk
      have hget : (e :: rest).get ⟨k + 1, hk⟩ = rest.get ⟨k, hk2⟩ := rfl
      rw [hget]
      have hhead_ne : e.award_id ≠ (rest.get ⟨k, hk2⟩).award_id :=
        fun hc => hnd2.1 (rest.get ⟨k, hk2⟩) (List.get_mem rest k hk2) hc.symm
      have hshift : i + (k + 1) = (i + 1) + k := by omega
      rcases hse : sendEmail e false (dp i) with ⟨res, evs⟩
      cases res with
      | error msg0 =>
        rw [sendLoop_cons_error hse]
        have hmain := ih (i + 1) s htr2 hnd2.2 k hk2
        constructor
        · intro msg hdp
          have hdp2 : dp ((i + 1) + k) = Except.error msg := by
            rwa [hshift] at hdp
          obtain ⟨h1, h2, h3, h4⟩ := hmain.1 msg hdp2
          refine ⟨?_, h2, h3, h4⟩
          rw [List.filter_cons, if_neg (by
            simp only [beq_iff_eq]
            exact hhead_ne)]
          exact h1
        · intro rid hdp
          have hdp2 : dp ((i + 1) + k) = Except.ok rid := by
            rwa [hshift] at hdp
          obtain ⟨h1, h2, h3, h4⟩ := hmain.2 rid hdp2
          exact ⟨h1, by
            rw [List.filter_cons, if_neg (by
              simp only [beq_iff_eq]
              exact hhead_ne)]
            exact h2, h3, h4⟩
      | ok result =>
        rw [sendLoop_cons_ok hse]
        rw [if_neg Bool.false_ne_true]
        have hmain := ih (i + 1) (markAsSent now e result.resendId s).2
          htr2 hnd2.2 k hk2
        have hmark_app : folderFind (markAsSent now e result.resendId
            s).2.approved (rest.get ⟨k, hk2⟩).award_id =
            folderFind s.approved (rest.get ⟨k, hk2⟩).award_id := by
          simp only [markAsSent]
          rw [folderFind_listErase,
            if_neg (fun hc => hhead_ne hc.symm)]
        have hmark_sent : folderFind (markAsSent now e result.resendId
            s).2.sent (rest.get ⟨k, hk2⟩).award_id =
            folderFind s.sent (rest.get ⟨k, hk2⟩).award_id := by
          simp only [markAsSent]
          rw [folderFind_listWrite,
            if_neg (fun hc => hhead_ne hc.symm)]
        constructor
        · intro msg hdp
          have hdp2 : dp ((i + 1) + k) = Except.error msg := by
            rwa [hshift] at hdp
          obtain ⟨h1, h2, h3, h4⟩ := hmain.1 msg hdp2
          refine ⟨h1, ?_, ?_, ?_⟩
          · rw [List.filter_cons, if_neg (by
              simp only [beq_iff_eq]
              exact hhead_ne)]
            exact h2
          · rw [h3, hmark_app]
          · rw [h4, hmark_sent]
        · intro rid hdp
          have hdp2 : dp ((i + 1) + k) = Except.ok rid := by
            rwa [hshift] at hdp
          obtain ⟨h1, h2, h3, h4⟩ := hmain.2 rid hdp2
          refine ⟨?_, h2, h3, h4⟩
          rw [List.filter_cons, if_neg (by
            simp only [beq_iff_eq]
            exact hhead_ne)]
          exact h1

/-- C2: in a real run with valid configuration, records whose recipients
are set and whose filenames (hence award ids) are distinct are processed
independently: a record whose dispatch raises contributes exactly one
`{awardId, recipient, error}` entry and its approved file is untouched (and
nothing of it reaches sent), while a record whose dispatch succeeds
contributes exactly one sent entry, is written to sent with `sent_at` and
`resend_id` set, and is deleted from approved; drafts and skipped are never
touched and the call as a whole returns normally. -/
theorem sendApprovedEmails_partial_failure
    (apiKey fromEmail : Option String) (limit : Nat) (delay : Int)
    (dp : Nat → Except String (Option String)) (now : String)
    (s : StoreState)
    (hkey : jsTruthyS apiKey = true) (hfrom : jsTruthyS fromEmail = true)
    (htr : ∀ e ∈ (getApprovedEmails s).take limit,
      jsTruthyS e.pi_email = true)
    (hnd : (((getApprovedEmails s).take limit).map
      (fun e => e.award_id)).Nodup) :
    isOkE (sendApprovedEmails apiKey limit delay false fromEmail dp now
      s).result = true ∧
    (sendApprovedEmails apiKey limit delay false fromEmail dp now
      s).state.drafts = s.drafts ∧
    (sendApprovedEmails apiKey limit delay false fromEmail dp now
      s).state.skipped = s.skipped ∧
    ∀ k (hk : k < ((getApprovedEmails s).take limit).length),
      (∀ msg, dp k = Except.error msg →
        (okResults (sendApprovedEmails apiKey limit delay false fromEmail dp
            now s).result).errors.filter
            (fun x => x.awardId ==
              (((getApprovedEmails s).take limit).get ⟨k, hk⟩).award_id) =
          [⟨(((getApprovedEmails s).take limit).get ⟨k, hk⟩).award_id,
            (((getApprovedEmails s).take limit).get ⟨k, hk⟩).pi_email, msg⟩] ∧
        (okResults (sendApprovedEmails apiKey limit delay false fromEmail dp
            now s).result).sent.filter
            (fun x => x.awardId ==
              (((getApprovedEmails s).take limit).get ⟨k, hk⟩).award_id) =
          [] ∧
        folderFind (sendApprovedEmails apiKey limit delay false fromEmail dp
            now s).state.approved
            (((getApprovedEmails s).take limit).get ⟨k, hk⟩).award_id =
          folderFind s.approved
            (((getApprovedEmails s).take limit).get ⟨k, hk⟩).award_id ∧
        folderFind (sendApprovedEmails apiKey limit delay false fromEmail dp
            now s).state.sent
            (((getApprovedEmails s).take limit).get ⟨k, hk⟩).award_id =
          folderFind s.sent
            (((getApprovedEmails s).take limit).get ⟨k, hk⟩).award_id) ∧
      (∀ rid, dp k = Except.ok rid →
        (okResults (sendApprovedEmails apiKey limit delay false fromEmail dp
            now s).result).sent.filter
            (fun x => x.awardId ==
              (((getApprovedEmails s).take limit).get ⟨k, hk⟩).award_id) =
          [⟨(((getApprovedEmails s).take limit).get ⟨k, hk⟩).award_id,
            (((getApprovedEmails s).take limit).get ⟨k, hk⟩).pi_email,
            (((getApprovedEmails s).take limit).get ⟨k, hk⟩).subject, rid⟩] ∧
        (okResults (sendApprovedEmails apiKey limit delay false fromEmail dp
            now s).result).errors.filter
            (fun x => x.awardId ==
              (((getApprovedEmails s).take limit).get ⟨k, hk⟩).award_id) =
          [] ∧
        folderFind (sendApprovedEmails apiKey limit delay false fromEmail dp
            now s).state.sent
            (((getApprovedEmails s).take limit).get ⟨k, hk⟩).award_id =
          some (some { ((getApprovedEmails s).take limit).get ⟨k, hk⟩ with
            sent_at := some now, resend_id := rid }) ∧
        folderFind (sendApprovedEmails apiKey limit delay false fromEmail dp
            now s).state.approved
            (((getApprovedEmails s).take limit).get ⟨k, hk⟩).award_id =
          none) := by
  have hcfg1 : ¬(¬false ∧ ¬jsTruthyS apiKey) := by simp [hkey]
  have hcfg2 : ¬(¬jsTruthyS fromEmail ∧ ¬false) := by simp [hfrom]
  refine ⟨?_, ?_, ?_, ?_⟩
  · rw [sendApprovedEmails, if_neg hcfg1, if_neg hcfg2]
    rfl
  · rw [sendApprovedEmails, if_neg hcfg1, if_neg hcfg2]
    exact (sendLoop_frame dp now false delay _ _ 0 s).1
  · rw [sendApprovedEmails, if_neg hcfg1, if_neg hcfg2]
    exact (sendLoop_frame dp now false delay _ _ 0 s).2
  · intro k hk
    have hmain := sendLoop_records dp now delay
      ((getApprovedEmails s).take limit).length
      ((getApprovedEmails s).take limit) 0 s htr hnd k hk
    rw [Nat.zero_add] at hmain
    constructor
    · intro msg hdp
      obtain ⟨h1, h2, h3, h4⟩ := hmain.1 msg hdp
      rw [sendApprovedEmails, if_neg hcfg1, if_neg hcfg2]
      exact ⟨h1, h2, h3, h4⟩
    · intro rid hdp
      obtain ⟨h1, h2, h3, h4⟩ := hmain.2 rid hdp
      rw [sendApprovedEmails, if_neg hcfg1, if_neg hcfg2]
      exact ⟨h1, h2, h3, h4⟩

/-- Concrete instantiation of the C2 theorem on Scenario C: limit 2, no
delay, three approved records, second dispatch raises; one record is sent,
one error is recorded, the failed record stays untouched in approved and
the succeeded one lives only in sent. -/
theorem sendApprovedEmails_partial_failure_witness :
    (okResults (sendApprovedEmails (some "key") 2 0 false (some "me@x.org")
      scenarioCDispatch "t2" threeApprovedStore).result).sent.length = 1 ∧
    (okResults (sendApprovedEmails (some "key") 2 0 false (some "me@x.org")
      scenarioCDispatch "t2" threeApprovedStore).result).errors.length = 1 ∧
    folderFind (sendApprovedEmails (some "key") 2 0 false (some "me@x.org")
        scenarioCDispatch "t2" threeApprovedStore).state.approved "A2" =
      some (some (sampleRecord "A2" (some "a2@x.edu"))) ∧
    folderFind (sendApprovedEmails (some "key") 2 0 false (some "me@x.org")
        scenarioCDispatch "t2" threeApprovedStore).state.sent "A1" =
      some (some { sampleRecord "A1" (some "a1@x.edu") with
        sent_at := some "t2", resend_id := some "rid0" }) ∧
    folderFind (sendApprovedEmails (some "key") 2 0 false (some "me@x.org")
        scenarioCDispatch "t2" threeApprovedStore).state.approved "A1" =
      none ∧
    folderFind (sendApprovedEmails (some "key") 2 0 false (some "me@x.org")
        scenarioCDispatch "t2" threeApprovedStore).state.sent "A2" =
      none := by
  have h := sendApprovedEmails_partial_failure (some "key") (some "me@x.org")
    2 0 scenarioCDispatch "t2" threeApprovedStore (by decide) (by decide)
    (by decide) (by decide)
  have h0 := (h.2.2.2 0 (by decide)).2 (some "rid0") rfl
  have h1 := (h.2.2.2 1 (by decide)).1 "boom" rfl
  exact ⟨by decide, by decide, h1.2.2.1, h0.2.2.1, h0.2.2.2, h1.2.2.2⟩

end NSFOutreach
